import Mathlib

/-!
Shallow embedding of the pytd AST visitors (`parse/visitors.py`):
the node model, the text renderer (`PrintVisitor`), the `StripSelf`
transform, the two-stage class resolution (`LookupClasses` +
`FillInClasses`) and the template instantiation engine
(`ReplaceType` + `InstantiateTemplates`).

Object identity of `Class` nodes is modelled by position: a
`ClassType`'s `cls` link is an index into the owning module's class
list, so "links to the exact same object" becomes equality of indices.
-/

namespace Pytd

/-- Type-expression nodes of the pytd node model.  `basic` is the
source's `BasicType` (a bare name, the spec's NamedType); `classType`
is the source's `ClassType` (the spec's ClassReference), whose `cls`
field is the link cell: `none` until resolution, then `some i` where
`i` is the index of the linked `Class` in the module's class list. -/
inductive PyType where
  | basic (containing_type : String)
  | classType (name : String) (cls : Option Nat)
  | homogeneous (base_type element_type : PyType)
  | generic (base_type : PyType) (parameters : List PyType)
  | union (type_list : List PyType)
  | intersection (type_list : List PyType)


/-- A function parameter: name plus type expression. -/
structure Parameter where
  name : String
  type : PyType


/-- A template parameter of a generic class: name plus upper bound. -/
structure TemplateItem where
  name : String
  within_type : PyType


/-- One overload of a function. -/
structure Signature where
  params : List Parameter
  return_type : PyType
  exceptions : List PyType
  has_optional : Bool


/-- A function: name plus its overloaded signatures. -/
structure Function where
  name : String
  signatures : List Signature


/-- A module-level or class-level constant. -/
structure Constant where
  name : String
  type : PyType


/-- A class.  `template = none` means the class is concrete (the
source stores `None`); `some items` means it is generic. -/
structure Class where
  name : String
  template : Option (List TemplateItem)
  parents : List PyType
  constants : List Constant
  methods : List Function


/-- A whole pytd module (`TypeDeclUnit`). -/
structure TypeDeclUnit where
  constants : List Constant
  functions : List Function
  classes : List Class


/-! ## Renderer (`PrintVisitor`) -/

/-- The regular expression `^[a-zA-Z_]\w*$` of `PrintVisitor.VALID_NAME`,
restricted to ASCII as in the source's intended inputs. -/
def VALID_NAME (s : String) : Bool :=
  match s.data with
  | [] => false
  | c :: cs => (c.isAlpha || c = '_') && cs.all (fun d => d.isAlphanum || d = '_')

/-- `PrintVisitor.SafeName`: back-tick-quote names that are not plain
identifiers. -/
def SafeName (name : String) : String :=
  if VALID_NAME name then name else "`" ++ name ++ "`"

/-- `PrintVisitor.INDENT`. -/
def INDENT : String := "    "

mutual

/-- Render a type expression to text, following `PrintVisitor`'s
handlers for the type nodes.  `env` stands in for pointer dereference:
a filled `classType` link `some i` denotes `env[i]`.  Rendering a
`classType` whose link cell is empty (or dangling) is the source's
`AttributeError` on `node.cls.name`, modelled as `none`. -/
def renderT (env : List Class) : PyType → Option String
  | .basic n => some (SafeName n)
  | .classType _ cls =>
    match cls with
    | none => none
    | some i =>
      match env[i]? with
      | some c => some (SafeName c.name)
      | none => none
  | .homogeneous b e =>
    match renderT env b, renderT env e with
    | some bs, some es => some (bs ++ "<" ++ es ++ ">")
    | _, _ => none
  | .generic b ps =>
    match renderT env b, renderTList env ps with
    | some bs, some pss => some (bs ++ "<" ++ String.intercalate ", " pss ++ ">")
    | _, _ => none
  | .union ts =>
    match renderTList env ts with
    | some ss => some (String.intercalate " or " ss)
    | none => none
  | .intersection ts =>
    match renderTList env ts with
    | some ss => some (String.intercalate " and " ss)
    | none => none

/-- Render a list of type expressions (the rebuilt children lists the
post-order traversal hands to `PrintVisitor`'s handlers). -/
def renderTList (env : List Class) : List PyType → Option (List String)
  | [] => some []
  | t :: ts =>
    match renderT env t, renderTList env ts with
    | some s, some ss => some (s :: ss)
    | _, _ => none

end

/-- `PrintVisitor.VisitParameter`: `name: Type`, or the bare name when
the type renders as `object` (the universal "any" type's rendering). -/
def renderParameter (env : List Class) (p : Parameter) : Option String :=
  match renderT env p.type with
  | none => none
  | some ts => if ts ≠ "object" then some (p.name ++ ": " ++ ts) else some p.name

/-- Render a list of parameters. -/
def renderParameterList (env : List Class) : List Parameter → Option (List String)
  | [] => some []
  | p :: ps =>
    match renderParameter env p, renderParameterList env ps with
    | some s, some ss => some (s :: ss)
    | _, _ => none

/-- `PrintVisitor.VisitSignature`. -/
def renderSignature (env : List Class) (s : Signature) : Option String :=
  match renderT env s.return_type, renderParameterList env s.params,
        renderTList env s.exceptions with
  | some rt, some ps, some exc =>
    let ret := if rt ≠ "object" then " -> " ++ rt else ""
    let excs := if exc ≠ [] then " raises " ++ String.intercalate ", " exc else ""
    let optional := if s.has_optional then ["..."] else []
    some ("(" ++ String.intercalate ", " (ps ++ optional) ++ ")" ++ ret ++ excs)
  | _, _, _ => none

/-- Render a list of signatures. -/
def renderSignatureList (env : List Class) : List Signature → Option (List String)
  | [] => some []
  | s :: ss =>
    match renderSignature env s, renderSignatureList env ss with
    | some r, some rs => some (r :: rs)
    | _, _ => none

/-- `PrintVisitor.VisitFunction`: one `def` line per overload. -/
def renderFunction (env : List Class) (f : Function) : Option String :=
  match renderSignatureList env f.signatures with
  | some sigs => some (String.intercalate "\n" (sigs.map (fun s => "def " ++ f.name ++ s)))
  | none => none

/-- Render a list of functions. -/
def renderFunctionList (env : List Class) : List Function → Option (List String)
  | [] => some []
  | f :: fs =>
    match renderFunction env f, renderFunctionList env fs with
    | some s, some ss => some (s :: ss)
    | _, _ => none

/-- `PrintVisitor.VisitConstant`: `name: type`. -/
def renderConstant (env : List Class) (c : Constant) : Option String :=
  match renderT env c.type with
  | some t => some (c.name ++ ": " ++ t)
  | none => none

/-- Render a list of constants. -/
def renderConstantList (env : List Class) : List Constant → Option (List String)
  | [] => some []
  | c :: cs =>
    match renderConstant env c, renderConstantList env cs with
    | some s, some ss => some (s :: ss)
    | _, _ => none

/-- `PrintVisitor.VisitTemplateItem`: `name<bound>`. -/
def renderTemplateItem (env : List Class) (t : TemplateItem) : Option String :=
  match renderT env t.within_type with
  | some w => some (t.name ++ "<" ++ w ++ ">")
  | none => none

/-- Render a list of template items. -/
def renderTemplateItemList (env : List Class) : List TemplateItem → Option (List String)
  | [] => some []
  | t :: ts =>
    match renderTemplateItem env t, renderTemplateItemList env ts with
    | some s, some ss => some (s :: ss)
    | _, _ => none

/-- The source's `str.splitlines` on strings with no trailing newline
(which is what `VisitFunction` produces). -/
def splitLines (s : String) : List String := s.splitOn "\n"

/-- `PrintVisitor.VisitClass`: header, indented constants, indented
method lines; a class with no methods gets an indented `pass` line. -/
def renderClass (env : List Class) (c : Class) : Option String :=
  match renderTemplateItemList env (c.template.getD []),
        renderTList env c.parents,
        renderConstantList env c.constants,
        renderFunctionList env c.methods with
  | some tmpl, some prts, some consts, some meths =>
    let parents := if prts ≠ [] then "(" ++ String.intercalate ", " prts ++ ")" else ""
    let template := if tmpl ≠ [] then "<" ++ String.intercalate ", " tmpl ++ ">" else ""
    let constants := consts.map (fun m => INDENT ++ m)
    let methods :=
      if meths ≠ [] then
        ((meths.map splitLines).flatten).map (fun m => INDENT ++ m)
      else
        [INDENT ++ "pass"]
    let header := "class " ++ SafeName c.name ++ template ++ parents ++ ":"
    some (String.intercalate "\n" ([header] ++ constants ++ methods) ++ "\n")
  | _, _, _, _ => none

/-! ## `StripSelf` -/

/-- `StripSelf.StripSignature`: drop the leading parameter. -/
def StripSignature (s : Signature) : Signature :=
  { s with params := s.params.drop 1 }

/-- `StripSelf._StripFunction`: strip every signature of a method. -/
def StripFunction (f : Function) : Function :=
  { f with signatures := f.signatures.map StripSignature }

/-- `StripSelf.VisitClass`: strip every method of a class. -/
def StripSelfClass (c : Class) : Class :=
  { c with methods := c.methods.map StripFunction }

/-! ## Errors

The concrete exceptions the source raises: `KeyError` from symbol-table
lookup (the spec's UnresolvedNameError / NameResolutionError),
`NotImplementedError` from `VisitGenericType` (the spec's
UnsupportedConstructError), `AttributeError` from dereferencing a field
the node does not have, `TypeError` from iterating `None`. -/
inductive Err where
  | keyError (name : String)
  | notImplementedError
  | attributeError
  | typeError
deriving DecidableEq, Repr

/-- Modelled from the spec: `TypeDeclUnit.Lookup` of the missing `pytd`
module ("`Lookup(name) -> Class`; fails ... if no class with that name
exists in the owning module").  Identity-returning variant: the index of
the class with the given name in the module's class list. -/
def lookupIdx (classes : List Class) (n : String) : Option Nat :=
  match classes with
  | [] => none
  | c :: rest =>
    if c.name == n then some 0 else (lookupIdx rest n).map (fun i => i + 1)

/-- Modelled from the spec: `TypeDeclUnit.Lookup`, value-returning
variant (used by the instantiation engine, which copies the class). -/
def lookupCls (classes : List Class) (n : String) : Option Class :=
  match classes with
  | [] => none
  | c :: rest => if c.name == n then some c else lookupCls rest n

/-! ## `LookupClasses`: stage 1, `BasicType` to `ClassType` -/

mutual

/-- `LookupClasses.VisitBasicType` applied through the post-order
traversal: every `basic` leaf becomes a `classType` with the same name
and an empty link cell; every other node is rebuilt from its converted
children. -/
def convT : PyType → PyType
  | .basic n => .classType n none
  | .classType n c => .classType n c
  | .homogeneous b e => .homogeneous (convT b) (convT e)
  | .generic b ps => .generic (convT b) (convTList ps)
  | .union ts => .union (convTList ts)
  | .intersection ts => .intersection (convTList ts)

/-- Convert a list of type expressions. -/
def convTList : List PyType → List PyType
  | [] => []
  | t :: ts => convT t :: convTList ts

end

/-- Convert the type inside a parameter. -/
def convParameter (p : Parameter) : Parameter :=
  { p with type := convT p.type }

/-- Convert the bound inside a template item. -/
def convTemplateItem (t : TemplateItem) : TemplateItem :=
  { t with within_type := convT t.within_type }

/-- Convert all types inside a signature. -/
def convSignature (s : Signature) : Signature :=
  { s with params := s.params.map convParameter
           return_type := convT s.return_type
           exceptions := convTList s.exceptions }

/-- Convert all types inside a function. -/
def convFunction (f : Function) : Function :=
  { f with signatures := f.signatures.map convSignature }

/-- Convert the type inside a constant. -/
def convConstant (c : Constant) : Constant :=
  { c with type := convT c.type }

/-- Convert all types inside a class. -/
def convClass (c : Class) : Class :=
  { c with template := c.template.map (List.map convTemplateItem)
           parents := convTList c.parents
           constants := c.constants.map convConstant
           methods := c.methods.map convFunction }

/-- Convert all types inside a module. -/
def convUnit (u : TypeDeclUnit) : TypeDeclUnit :=
  { u with constants := u.constants.map convConstant
           functions := u.functions.map convFunction
           classes := u.classes.map convClass }

/-! ## `FillInClasses`: stage 2, filling the link cells -/

mutual

/-- `FillInClasses.VisitClassType`: set the link cell of every
`classType` to the symbol-table lookup of its name; `KeyError` if the
name is not a class of the module. -/
def fillT (cs : List Class) : PyType → Except Err PyType
  | .basic n => .ok (.basic n)
  | .classType n _ =>
    match lookupIdx cs n with
    | some i => .ok (.classType n (some i))
    | none => .error (.keyError n)
  | .homogeneous b e =>
    match fillT cs b, fillT cs e with
    | .ok b', .ok e' => .ok (.homogeneous b' e')
    | .error err, _ => .error err
    | _, .error err => .error err
  | .generic b ps =>
    match fillT cs b, fillTList cs ps with
    | .ok b', .ok ps' => .ok (.generic b' ps')
    | .error err, _ => .error err
    | _, .error err => .error err
  | .union ts =>
    match fillTList cs ts with
    | .ok ts' => .ok (.union ts')
    | .error err => .error err
  | .intersection ts =>
    match fillTList cs ts with
    | .ok ts' => .ok (.intersection ts')
    | .error err => .error err

/-- Fill the link cells in a list of type expressions. -/
def fillTList (cs : List Class) : List PyType → Except Err (List PyType)
  | [] => .ok []
  | t :: ts =>
    match fillT cs t, fillTList cs ts with
    | .ok t', .ok ts' => .ok (t' :: ts')
    | .error err, _ => .error err
    | _, .error err => .error err

end

/-- Fill the link cells inside a parameter. -/
def fillParameter (cs : List Class) (p : Parameter) : Except Err Parameter :=
  match fillT cs p.type with
  | .ok t => .ok { p with type := t }
  | .error err => .error err

/-- Fill the link cells inside a list of parameters. -/
def fillParameterList (cs : List Class) : List Parameter → Except Err (List Parameter)
  | [] => .ok []
  | p :: ps =>
    match fillParameter cs p, fillParameterList cs ps with
    | .ok p', .ok ps' => .ok (p' :: ps')
    | .error err, _ => .error err
    | _, .error err => .error err

/-- Fill the link cells inside a template item. -/
def fillTemplateItem (cs : List Class) (t : TemplateItem) : Except Err TemplateItem :=
  match fillT cs t.within_type with
  | .ok w => .ok { t with within_type := w }
  | .error err => .error err

/-- Fill the link cells inside a list of template items. -/
def fillTemplateItemList (cs : List Class) :
    List TemplateItem → Except Err (List TemplateItem)
  | [] => .ok []
  | t :: ts =>
    match fillTemplateItem cs t, fillTemplateItemList cs ts with
    | .ok t', .ok ts' => .ok (t' :: ts')
    | .error err, _ => .error err
    | _, .error err => .error err

/-- Fill the link cells inside a signature. -/
def fillSignature (cs : List Class) (s : Signature) : Except Err Signature :=
  match fillParameterList cs s.params, fillT cs s.return_type,
        fillTList cs s.exceptions with
  | .ok ps, .ok rt, .ok exc =>
    .ok { s with params := ps, return_type := rt, exceptions := exc }
  | .error err, _, _ => .error err
  | _, .error err, _ => .error err
  | _, _, .error err => .error err

/-- Fill the link cells inside a list of signatures. -/
def fillSignatureList (cs : List Class) : List Signature → Except Err (List Signature)
  | [] => .ok []
  | s :: ss =>
    match fillSignature cs s, fillSignatureList cs ss with
    | .ok s', .ok ss' => .ok (s' :: ss')
    | .error err, _ => .error err
    | _, .error err => .error err

/-- Fill the link cells inside a function. -/
def fillFunction (cs : List Class) (f : Function) : Except Err Function :=
  match fillSignatureList cs f.signatures with
  | .ok sigs => .ok { f with signatures := sigs }
  | .error err => .error err

/-- Fill the link cells inside a list of functions. -/
def fillFunctionList (cs : List Class) : List Function → Except Err (List Function)
  | [] => .ok []
  | f :: fs =>
    match fillFunction cs f, fillFunctionList cs fs with
    | .ok f', .ok fs' => .ok (f' :: fs')
    | .error err, _ => .error err
    | _, .error err => .error err

/-- Fill the link cells inside a constant. -/
def fillConstant (cs : List Class) (c : Constant) : Except Err Constant :=
  match fillT cs c.type with
  | .ok t => .ok { c with type := t }
  | .error err => .error err

/-- Fill the link cells inside a list of constants. -/
def fillConstantList (cs : List Class) : List Constant → Except Err (List Constant)
  | [] => .ok []
  | c :: cl =>
    match fillConstant cs c, fillConstantList cs cl with
    | .ok c', .ok cl' => .ok (c' :: cl')
    | .error err, _ => .error err
    | _, .error err => .error err

/-- Fill the link cells inside a class. -/
def fillClass (cs : List Class) (c : Class) : Except Err Class :=
  match (match c.template with
         | none => .ok none
         | some ts =>
           match fillTemplateItemList cs ts with
           | .ok ts' => .ok (some ts')
           | .error err => .error err : Except Err (Option (List TemplateItem))),
        fillTList cs c.parents, fillConstantList cs c.constants,
        fillFunctionList cs c.methods with
  | .ok tmpl, .ok prts, .ok consts, .ok meths =>
    .ok { c with template := tmpl, parents := prts,
                 constants := consts, methods := meths }
  | .error err, _, _, _ => .error err
  | _, .error err, _, _ => .error err
  | _, _, .error err, _ => .error err
  | _, _, _, .error err => .error err

/-- Fill the link cells inside a list of classes. -/
def fillClassList (cs : List Class) : List Class → Except Err (List Class)
  | [] => .ok []
  | c :: cl =>
    match fillClass cs c, fillClassList cs cl with
    | .ok c', .ok cl' => .ok (c' :: cl')
    | .error err, _ => .error err
    | _, .error err => .error err

/-- Fill the link cells everywhere in a module, using `cs` as the
symbol table. -/
def fillUnit (cs : List Class) (u : TypeDeclUnit) : Except Err TypeDeclUnit :=
  match fillConstantList cs u.constants, fillFunctionList cs u.functions,
        fillClassList cs u.classes with
  | .ok consts, .ok fns, .ok cls =>
    .ok { u with constants := consts, functions := fns, classes := cls }
  | .error err, _, _ => .error err
  | _, .error err, _ => .error err
  | _, _, .error err => .error err

/-- `LookupClasses.VisitTypeDeclUnit`: convert every `basic` to a
`classType`, then run `FillInClasses` over the converted module using
the module itself as the symbol table. -/
def LookupClasses (u : TypeDeclUnit) : Except Err TypeDeclUnit :=
  let u' := convUnit u
  fillUnit u'.classes u'

/-! ## `ReplaceType` -/

/-- Lookup in a Python dict built by comprehension over an association
list: a later binding of the same key overwrites an earlier one. -/
def dictLookup (m : List (String × PyType)) (k : String) : Option PyType :=
  match m with
  | [] => none
  | (k', v) :: rest =>
    match dictLookup rest k with
    | some r => some r
    | none => if k' == k then some v else none

mutual

/-- `ReplaceType.VisitBasicType` applied through the traversal: a
`basic` node whose name is a key of the mapping becomes the mapped
type; everything else is rebuilt from its replaced children.  Note
that `classType` nodes are untouched: `ReplaceType` defines no handler
for them. -/
def replaceT (m : List (String × PyType)) : PyType → PyType
  | .basic n =>
    match dictLookup m n with
    | some t => t
    | none => .basic n
  | .classType n c => .classType n c
  | .homogeneous b e => .homogeneous (replaceT m b) (replaceT m e)
  | .generic b ps => .generic (replaceT m b) (replaceTList m ps)
  | .union ts => .union (replaceTList m ts)
  | .intersection ts => .intersection (replaceTList m ts)

/-- Replace types in a list of type expressions. -/
def replaceTList (m : List (String × PyType)) : List PyType → List PyType
  | [] => []
  | t :: ts => replaceT m t :: replaceTList m ts

end

/-- Replace the type inside a parameter. -/
def replaceParameter (m : List (String × PyType)) (p : Parameter) : Parameter :=
  { p with type := replaceT m p.type }

/-- Replace the bound inside a template item. -/
def replaceTemplateItem (m : List (String × PyType)) (t : TemplateItem) : TemplateItem :=
  { t with within_type := replaceT m t.within_type }

/-- Replace all types inside a signature. -/
def replaceSignature (m : List (String × PyType)) (s : Signature) : Signature :=
  { s with params := s.params.map (replaceParameter m)
           return_type := replaceT m s.return_type
           exceptions := replaceTList m s.exceptions }

/-- Replace all types inside a function. -/
def replaceFunction (m : List (String × PyType)) (f : Function) : Function :=
  { f with signatures := f.signatures.map (replaceSignature m) }

/-- Replace the type inside a constant. -/
def replaceConstant (m : List (String × PyType)) (c : Constant) : Constant :=
  { c with type := replaceT m c.type }

/-- Replace all types inside a class. -/
def replaceClass (m : List (String × PyType)) (c : Class) : Class :=
  { c with template := c.template.map (List.map (replaceTemplateItem m))
           parents := replaceTList m c.parents
           constants := c.constants.map (replaceConstant m)
           methods := c.methods.map (replaceFunction m) }

/-! ## `InstantiateTemplates` -/

/-- The memoization cache `_instantiated_classes`: an insertion-ordered
association list from canonical name to instantiated class (a Python
dict preserves insertion order, and `.values()` lists them in it). -/
abbrev Cache := List (String × Class)

/-- Membership test / lookup used for `if name not in self._instantiated_classes`.
Keys are unique by construction, so first match suffices. -/
def cacheLookup (cache : Cache) (k : String) : Option Class :=
  match cache with
  | [] => none
  | p :: rest => if p.1 == k then some p.2 else cacheLookup rest k

/-- `InstantiateTemplates._InstantiateClass`: look up the base class by
its `containing_type` name (an `AttributeError` if the base is not a
`basic` node, a `KeyError` if the name is unknown), zip the template
parameter names with the element types (a `TypeError` if the template
is `None`; zip truncates silently on length mismatch), and run
`ReplaceType` over a copy renamed to the canonical name with its
template cleared. -/
def InstantiateClass (st : List Class) (name : String) (base : PyType)
    (element_types : List PyType) : Except Err Class :=
  match base with
  | .basic btn =>
    match lookupCls st btn with
    | none => .error (.keyError btn)
    | some cls =>
      match cls.template with
      | none => .error .typeError
      | some ts =>
        let mapping := List.zip (ts.map (fun t => t.name)) element_types
        .ok (replaceClass mapping { cls with name := name, template := none })
  | _ => .error .attributeError

mutual

/-- `InstantiateTemplates`'s traversal over type expressions, threading
the memoization cache.  `VisitHomogeneousContainerType`: render the
(already rebuilt) base and element, form the canonical name, reuse the
cache entry when present, otherwise instantiate and insert; either way
the node becomes `BasicType(name)`.  `VisitGenericType`: children are
visited first (post-order), then `NotImplementedError`. -/
def instT (st : List Class) : PyType → Cache → Except Err PyType × Cache
  | .basic n, cache => (.ok (.basic n), cache)
  | .classType n c, cache => (.ok (.classType n c), cache)
  | .homogeneous b e, cache =>
    match instT st b cache with
    | (.error err, cache1) => (.error err, cache1)
    | (.ok b', cache1) =>
      match instT st e cache1 with
      | (.error err, cache2) => (.error err, cache2)
      | (.ok e', cache2) =>
        match renderT st b', renderT st e' with
        | some bs, some es =>
          let name := bs ++ "<" ++ es ++ ">"
          match cacheLookup cache2 name with
          | some _ => (.ok (.basic name), cache2)
          | none =>
            match InstantiateClass st name b' [e'] with
            | .ok cls => (.ok (.basic name), cache2 ++ [(name, cls)])
            | .error err => (.error err, cache2)
        | _, _ => (.error .attributeError, cache2)
  | .generic b ps, cache =>
    match instT st b cache with
    | (.error err, cache1) => (.error err, cache1)
    | (.ok _, cache1) =>
      match instTList st ps cache1 with
      | (.error err, cache2) => (.error err, cache2)
      | (.ok _, cache2) => (.error .notImplementedError, cache2)
  | .union ts, cache =>
    match instTList st ts cache with
    | (.ok ts', c) => (.ok (.union ts'), c)
    | (.error err, c) => (.error err, c)
  | .intersection ts, cache =>
    match instTList st ts cache with
    | (.ok ts', c) => (.ok (.intersection ts'), c)
    | (.error err, c) => (.error err, c)

/-- Instantiate through a list of type expressions, left to right. -/
def instTList (st : List Class) : List PyType → Cache → Except Err (List PyType) × Cache
  | [], cache => (.ok [], cache)
  | t :: ts, cache =>
    match instT st t cache with
    | (.error err, c) => (.error err, c)
    | (.ok t', c) =>
      match instTList st ts c with
      | (.error err, c2) => (.error err, c2)
      | (.ok ts', c2) => (.ok (t' :: ts'), c2)

end

/-- Instantiate through a parameter. -/
def instParameter (st : List Class) (p : Parameter) (cache : Cache) :
    Except Err Parameter × Cache :=
  match instT st p.type cache with
  | (.ok t, c) => (.ok { p with type := t }, c)
  | (.error err, c) => (.error err, c)

/-- Instantiate through a list of parameters. -/
def instParameterList (st : List Class) : List Parameter → Cache →
    Except Err (List Parameter) × Cache
  | [], cache => (.ok [], cache)
  | p :: ps, cache =>
    match instParameter st p cache with
    | (.error err, c) => (.error err, c)
    | (.ok p', c) =>
      match instParameterList st ps c with
      | (.error err, c2) => (.error err, c2)
      | (.ok ps', c2) => (.ok (p' :: ps'), c2)

/-- Instantiate through a template item. -/
def instTemplateItem (st : List Class) (t : TemplateItem) (cache : Cache) :
    Except Err TemplateItem × Cache :=
  match instT st t.within_type cache with
  | (.ok w, c) => (.ok { t with within_type := w }, c)
  | (.error err, c) => (.error err, c)

/-- Instantiate through a list of template items. -/
def instTemplateItemList (st : List Class) : List TemplateItem → Cache →
    Except Err (List TemplateItem) × Cache
  | [], cache => (.ok [], cache)
  | t :: ts, cache =>
    match instTemplateItem st t cache with
    | (.error err, c) => (.error err, c)
    | (.ok t', c) =>
      match instTemplateItemList st ts c with
      | (.error err, c2) => (.error err, c2)
      | (.ok ts', c2) => (.ok (t' :: ts'), c2)

/-- Instantiate through a signature. -/
def instSignature (st : List Class) (s : Signature) (cache : Cache) :
    Except Err Signature × Cache :=
  match instParameterList st s.params cache with
  | (.error err, c) => (.error err, c)
  | (.ok ps, c) =>
    match instT st s.return_type c with
    | (.error err, c1) => (.error err, c1)
    | (.ok rt, c1) =>
      match instTList st s.exceptions c1 with
      | (.error err, c2) => (.error err, c2)
      | (.ok exc, c2) =>
        (.ok { s with params := ps, return_type := rt, exceptions := exc }, c2)

/-- Instantiate through a list of signatures. -/
def instSignatureList (st : List Class) : List Signature → Cache →
    Except Err (List Signature) × Cache
  | [], cache => (.ok [], cache)
  | s :: ss, cache =>
    match instSignature st s cache with
    | (.error err, c) => (.error err, c)
    | (.ok s', c) =>
      match instSignatureList st ss c with
      | (.error err, c2) => (.error err, c2)
      | (.ok ss', c2) => (.ok (s' :: ss'), c2)

/-- Instantiate through a function. -/
def instFunction (st : List Class) (f : Function) (cache : Cache) :
    Except Err Function × Cache :=
  match instSignatureList st f.signatures cache with
  | (.ok sigs, c) => (.ok { f with signatures := sigs }, c)
  | (.error err, c) => (.error err, c)

/-- Instantiate through a list of functions. -/
def instFunctionList (st : List Class) : List Function → Cache →
    Except Err (List Function) × Cache
  | [], cache => (.ok [], cache)
  | f :: fs, cache =>
    match instFunction st f cache with
    | (.error err, c) => (.error err, c)
    | (.ok f', c) =>
      match instFunctionList st fs c with
      | (.error err, c2) => (.error err, c2)
      | (.ok fs', c2) => (.ok (f' :: fs'), c2)

/-- Instantiate through a constant. -/
def instConstant (st : List Class) (c : Constant) (cache : Cache) :
    Except Err Constant × Cache :=
  match instT st c.type cache with
  | (.ok t, ca) => (.ok { c with type := t }, ca)
  | (.error err, ca) => (.error err, ca)

/-- Instantiate through a list of constants. -/
def instConstantList (st : List Class) : List Constant → Cache →
    Except Err (List Constant) × Cache
  | [], cache => (.ok [], cache)
  | c :: cl, cache =>
    match instConstant st c cache with
    | (.error err, ca) => (.error err, ca)
    | (.ok c', ca) =>
      match instConstantList st cl ca with
      | (.error err, c2) => (.error err, c2)
      | (.ok cl', c2) => (.ok (c' :: cl'), c2)

/-- Instantiate through a class (its template bounds, parents,
constants and methods; the class's own name and template structure are
untouched by this traversal). -/
def instClass (st : List Class) (c : Class) (cache : Cache) :
    Except Err Class × Cache :=
  match (match c.template with
         | none => (.ok none, cache)
         | some ts =>
           match instTemplateItemList st ts cache with
           | (.ok ts', ca) => (.ok (some ts'), ca)
           | (.error err, ca) => (.error err, ca) :
           Except Err (Option (List TemplateItem)) × Cache) with
  | (.error err, ca) => (.error err, ca)
  | (.ok tmpl, ca) =>
    match instTList st c.parents ca with
    | (.error err, c1) => (.error err, c1)
    | (.ok prts, c1) =>
      match instConstantList st c.constants c1 with
      | (.error err, c2) => (.error err, c2)
      | (.ok consts, c2) =>
        match instFunctionList st c.methods c2 with
        | (.error err, c3) => (.error err, c3)
        | (.ok meths, c3) =>
          (.ok { c with template := tmpl, parents := prts,
                        constants := consts, methods := meths }, c3)

/-- Instantiate through a list of classes. -/
def instClassList (st : List Class) : List Class → Cache →
    Except Err (List Class) × Cache
  | [], cache => (.ok [], cache)
  | c :: cl, cache =>
    match instClass st c cache with
    | (.error err, ca) => (.error err, ca)
    | (.ok c', ca) =>
      match instClassList st cl ca with
      | (.error err, c2) => (.error err, c2)
      | (.ok cl', c2) => (.ok (c' :: cl'), c2)

/-- `InstantiateTemplates.VisitTypeDeclUnit` applied through the
traversal: visit everything, then keep only the visited classes whose
template is `None` and append the cache's values. -/
def instUnit (st : List Class) (u : TypeDeclUnit) (cache : Cache) :
    Except Err TypeDeclUnit × Cache :=
  match instConstantList st u.constants cache with
  | (.error err, c) => (.error err, c)
  | (.ok consts, c) =>
    match instFunctionList st u.functions c with
    | (.error err, c1) => (.error err, c1)
    | (.ok fns, c1) =>
      match instClassList st u.classes c1 with
      | (.error err, c2) => (.error err, c2)
      | (.ok cls, c2) =>
        let old_classes := cls.filter (fun c => c.template.isNone)
        let new_classes := c2.map (fun p => p.2)
        (.ok { u with constants := consts, functions := fns,
                      classes := old_classes ++ new_classes }, c2)

/-- One run of `InstantiateTemplates` over a module, with symbol table
`st` and an initially empty cache. -/
def InstantiateTemplates (st : List Class) (u : TypeDeclUnit) :
    Except Err TypeDeclUnit × Cache :=
  instUnit st u []

/-! ## Link-cell and referenced-name observations used to state the
resolution claims -/

mutual

/-- Every `classType` link cell in the type expression is filled. -/
def filledT : PyType → Bool
  | .basic _ => true
  | .classType _ cls => cls.isSome
  | .homogeneous b e => filledT b && filledT e
  | .generic b ps => filledT b && filledTList ps
  | .union ts => filledTList ts
  | .intersection ts => filledTList ts

/-- List version of `filledT`. -/
def filledTList : List PyType → Bool
  | [] => true
  | t :: ts => filledT t && filledTList ts

end

/-- Link cells of a parameter. -/
def filledParameter (p : Parameter) : Bool := filledT p.type

/-- Link cells of a template item. -/
def filledTemplateItem (t : TemplateItem) : Bool := filledT t.within_type

/-- Link cells of a signature. -/
def filledSignature (s : Signature) : Bool :=
  s.params.all filledParameter && filledT s.return_type && filledTList s.exceptions

/-- Link cells of a function. -/
def filledFunction (f : Function) : Bool := f.signatures.all filledSignature

/-- Link cells of a constant. -/
def filledConstant (c : Constant) : Bool := filledT c.type

/-- Link cells of a class. -/
def filledClass (c : Class) : Bool :=
  (match c.template with
   | none => true
   | some ts => ts.all filledTemplateItem) &&
  filledTList c.parents && c.constants.all filledConstant && c.methods.all filledFunction

/-- Link cells of a whole module. -/
def filledUnit (u : TypeDeclUnit) : Bool :=
  u.constants.all filledConstant && u.functions.all filledFunction &&
  u.classes.all filledClass

mutual

/-- The class names referenced by a type expression: the names of
`basic` (NamedType) leaves and of `classType` (ClassReference) nodes. -/
def refNamesT : PyType → List String
  | .basic n => [n]
  | .classType n _ => [n]
  | .homogeneous b e => refNamesT b ++ refNamesT e
  | .generic b ps => refNamesT b ++ refNamesTList ps
  | .union ts => refNamesTList ts
  | .intersection ts => refNamesTList ts

/-- List version of `refNamesT`. -/
def refNamesTList : List PyType → List String
  | [] => []
  | t :: ts => refNamesT t ++ refNamesTList ts

end

/-- Names referenced by a parameter. -/
def refNamesParameter (p : Parameter) : List String := refNamesT p.type

/-- Names referenced by a template item. -/
def refNamesTemplateItem (t : TemplateItem) : List String := refNamesT t.within_type

/-- Names referenced by a signature. -/
def refNamesSignature (s : Signature) : List String :=
  s.params.flatMap refNamesParameter ++ refNamesT s.return_type ++
    refNamesTList s.exceptions

/-- Names referenced by a function. -/
def refNamesFunction (f : Function) : List String :=
  f.signatures.flatMap refNamesSignature

/-- Names referenced by a constant. -/
def refNamesConstant (c : Constant) : List String := refNamesT c.type

/-- Names referenced by a class. -/
def refNamesClass (c : Class) : List String :=
  (match c.template with
   | none => []
   | some ts => ts.flatMap refNamesTemplateItem) ++
  refNamesTList c.parents ++ c.constants.flatMap refNamesConstant ++
  c.methods.flatMap refNamesFunction

/-- Names referenced anywhere in a module. -/
def refNamesUnit (u : TypeDeclUnit) : List String :=
  u.constants.flatMap refNamesConstant ++ u.functions.flatMap refNamesFunction ++
  u.classes.flatMap refNamesClass

mutual

/-- The names carried by `classType` (ClassReference) nodes only —
exactly the names stage 2 (`FillInClasses`) looks up. -/
def ctNamesT : PyType → List String
  | .basic _ => []
  | .classType n _ => [n]
  | .homogeneous b e => ctNamesT b ++ ctNamesT e
  | .generic b ps => ctNamesT b ++ ctNamesTList ps
  | .union ts => ctNamesTList ts
  | .intersection ts => ctNamesTList ts

/-- List version of `ctNamesT`. -/
def ctNamesTList : List PyType → List String
  | [] => []
  | t :: ts => ctNamesT t ++ ctNamesTList ts

end

/-- ClassReference names of a parameter. -/
def ctNamesParameter (p : Parameter) : List String := ctNamesT p.type

/-- ClassReference names of a template item. -/
def ctNamesTemplateItem (t : TemplateItem) : List String := ctNamesT t.within_type

/-- ClassReference names of a signature. -/
def ctNamesSignature (s : Signature) : List String :=
  s.params.flatMap ctNamesParameter ++ ctNamesT s.return_type ++
    ctNamesTList s.exceptions

/-- ClassReference names of a function. -/
def ctNamesFunction (f : Function) : List String :=
  f.signatures.flatMap ctNamesSignature

/-- ClassReference names of a constant. -/
def ctNamesConstant (c : Constant) : List String := ctNamesT c.type

/-- ClassReference names of a class. -/
def ctNamesClass (c : Class) : List String :=
  (match c.template with
   | none => []
   | some ts => ts.flatMap ctNamesTemplateItem) ++
  ctNamesTList c.parents ++ c.constants.flatMap ctNamesConstant ++
  c.methods.flatMap ctNamesFunction

/-- ClassReference names of a whole module. -/
def ctNamesUnit (u : TypeDeclUnit) : List String :=
  u.constants.flatMap ctNamesConstant ++ u.functions.flatMap ctNamesFunction ++
  u.classes.flatMap ctNamesClass

mutual

/-- Stage 1 turns every referenced name into a ClassReference name. -/
theorem ctNamesT_convT (t : PyType) : ctNamesT (convT t) = refNamesT t := by
  cases t with
  | basic n => rfl
  | classType n c => rfl
  | homogeneous b e =>
    simp [convT, ctNamesT, refNamesT, ctNamesT_convT b, ctNamesT_convT e]
  | generic b ps =>
    simp [convT, ctNamesT, refNamesT, ctNamesT_convT b, ctNamesTList_convTList ps]
  | union ts => simp [convT, ctNamesT, refNamesT, ctNamesTList_convTList ts]
  | intersection ts => simp [convT, ctNamesT, refNamesT, ctNamesTList_convTList ts]

/-- List version of `ctNamesT_convT`. -/
theorem ctNamesTList_convTList (ts : List PyType) :
    ctNamesTList (convTList ts) = refNamesTList ts := by
  cases ts with
  | nil => rfl
  | cons t rest =>
    simp [convTList, ctNamesTList, refNamesTList, ctNamesT_convT t,
      ctNamesTList_convTList rest]

end

/-- Conversion and referenced names: parameters. -/
theorem ctNamesParameter_conv (p : Parameter) :
    ctNamesParameter (convParameter p) = refNamesParameter p :=
  ctNamesT_convT p.type

/-- Conversion and referenced names: template items. -/
theorem ctNamesTemplateItem_conv (t : TemplateItem) :
    ctNamesTemplateItem (convTemplateItem t) = refNamesTemplateItem t :=
  ctNamesT_convT t.within_type

/-- Conversion and referenced names: constants. -/
theorem ctNamesConstant_conv (c : Constant) :
    ctNamesConstant (convConstant c) = refNamesConstant c :=
  ctNamesT_convT c.type

/-- Conversion and referenced names: signatures. -/
theorem ctNamesSignature_conv (s : Signature) :
    ctNamesSignature (convSignature s) = refNamesSignature s := by
  simp [convSignature, ctNamesSignature, refNamesSignature, List.flatMap_map,
    ctNamesParameter_conv, ctNamesT_convT, ctNamesTList_convTList]

/-- Conversion and referenced names: functions. -/
theorem ctNamesFunction_conv (f : Function) :
    ctNamesFunction (convFunction f) = refNamesFunction f := by
  simp [convFunction, ctNamesFunction, refNamesFunction, List.flatMap_map,
    ctNamesSignature_conv]

/-- Conversion and referenced names: classes. -/
theorem ctNamesClass_conv (c : Class) :
    ctNamesClass (convClass c) = refNamesClass c := by
  cases hct : c.template with
  | none =>
    simp [convClass, ctNamesClass, refNamesClass, hct, List.flatMap_map,
      ctNamesConstant_conv, ctNamesFunction_conv, ctNamesTList_convTList]
  | some ts =>
    simp [convClass, ctNamesClass, refNamesClass, hct, List.flatMap_map,
      ctNamesTemplateItem_conv, ctNamesConstant_conv, ctNamesFunction_conv,
      ctNamesTList_convTList]

/-- Conversion and referenced names: modules. -/
theorem ctNamesUnit_conv (u : TypeDeclUnit) :
    ctNamesUnit (convUnit u) = refNamesUnit u := by
  simp [convUnit, ctNamesUnit, refNamesUnit, List.flatMap_map,
    ctNamesConstant_conv, ctNamesFunction_conv, ctNamesClass_conv]

/-- Conversion keeps every class's name. -/
theorem convUnit_class_names (u : TypeDeclUnit) :
    (convUnit u).classes.map (fun c => c.name) = u.classes.map (fun c => c.name) := by
  simp only [convUnit, List.map_map]
  exact List.map_congr_left (fun c _ => rfl)

/-- `lookupIdx` depends only on the names of the classes. -/
theorem lookupIdx_map_name {cl cl' : List Class}
    (h : cl.map (fun c => c.name) = cl'.map (fun c => c.name)) (n : String) :
    lookupIdx cl n = lookupIdx cl' n := by
  induction cl generalizing cl' with
  | nil =>
    cases cl' with
    | nil => rfl
    | cons c' rest' => simp at h
  | cons c rest ih =>
    cases cl' with
    | nil => simp at h
    | cons c' rest' =>
      simp only [List.map_cons, List.cons.injEq] at h
      obtain ⟨h1, h2⟩ := h
      simp [lookupIdx, h1, ih h2]

mutual

/-- A successful fill leaves no link cell empty and only happens when
every ClassReference name in the input resolves. -/
theorem fillT_ok {cs : List Class} {t t' : PyType} (h : fillT cs t = .ok t') :
    filledT t' = true ∧ ∀ n ∈ ctNamesT t, (lookupIdx cs n).isSome = true := by
  cases t with
  | basic n =>
    simp only [fillT, Except.ok.injEq] at h
    subst h
    exact ⟨rfl, by simp [ctNamesT]⟩
  | classType n c =>
    cases hl : lookupIdx cs n with
    | none => simp only [fillT, hl] at h; exact Except.noConfusion h
    | some i =>
      simp only [fillT, hl, Except.ok.injEq] at h
      subst h
      refine ⟨by simp [filledT], ?_⟩
      intro m hm
      simp only [ctNamesT, List.mem_singleton] at hm
      subst hm
      simp [hl]
  | homogeneous b e =>
    cases hb : fillT cs b with
    | error err => simp only [fillT, hb] at h; exact Except.noConfusion h
    | ok b' =>
      cases he : fillT cs e with
      | error err => simp only [fillT, hb, he] at h; exact Except.noConfusion h
      | ok e' =>
        simp only [fillT, hb, he, Except.ok.injEq] at h
        subst h
        obtain ⟨f1, d1⟩ := fillT_ok hb
        obtain ⟨f2, d2⟩ := fillT_ok he
        refine ⟨by simp [filledT, f1, f2], ?_⟩
        intro n hn
        rcases List.mem_append.mp hn with hn | hn
        · exact d1 n hn
        · exact d2 n hn
  | generic b ps =>
    cases hb : fillT cs b with
    | error err => simp only [fillT, hb] at h; exact Except.noConfusion h
    | ok b' =>
      cases hp : fillTList cs ps with
      | error err => simp only [fillT, hb, hp] at h; exact Except.noConfusion h
      | ok ps' =>
        simp only [fillT, hb, hp, Except.ok.injEq] at h
        subst h
        obtain ⟨f1, d1⟩ := fillT_ok hb
        obtain ⟨f2, d2⟩ := fillTList_ok hp
        refine ⟨by simp [filledT, f1, f2], ?_⟩
        intro n hn
        rcases List.mem_append.mp hn with hn | hn
        · exact d1 n hn
        · exact d2 n hn
  | union ts =>
    cases hts : fillTList cs ts with
    | error err => simp only [fillT, hts] at h; exact Except.noConfusion h
    | ok ts' =>
      simp only [fillT, hts, Except.ok.injEq] at h
      subst h
      obtain ⟨f1, d1⟩ := fillTList_ok hts
      exact ⟨by simp [filledT, f1], d1⟩
  | intersection ts =>
    cases hts : fillTList cs ts with
    | error err => simp only [fillT, hts] at h; exact Except.noConfusion h
    | ok ts' =>
      simp only [fillT, hts, Except.ok.injEq] at h
      subst h
      obtain ⟨f1, d1⟩ := fillTList_ok hts
      exact ⟨by simp [filledT, f1], d1⟩

/-- List version of `fillT_ok`. -/
theorem fillTList_ok {cs : List Class} {ts ts' : List PyType}
    (h : fillTList cs ts = .ok ts') :
    filledTList ts' = true ∧ ∀ n ∈ ctNamesTList ts, (lookupIdx cs n).isSome = true := by
  cases ts with
  | nil =>
    simp only [fillTList, Except.ok.injEq] at h
    subst h
    exact ⟨rfl, by simp [ctNamesTList]⟩
  | cons t rest =>
    cases ht : fillT cs t with
    | error err => simp only [fillTList, ht] at h; exact Except.noConfusion h
    | ok t' =>
      cases hr : fillTList cs rest with
      | error err => simp only [fillTList, ht, hr] at h; exact Except.noConfusion h
      | ok rest' =>
        simp only [fillTList, ht, hr, Except.ok.injEq] at h
        subst h
        obtain ⟨f1, d1⟩ := fillT_ok ht
        obtain ⟨f2, d2⟩ := fillTList_ok hr
        refine ⟨by simp [filledTList, f1, f2], ?_⟩
        intro n hn
        rcases List.mem_append.mp hn with hn | hn
        · exact d1 n hn
        · exact d2 n hn

end

mutual

/-- A failed fill is a `KeyError` naming some referenced ClassReference
name that does not resolve. -/
theorem fillT_err {cs : List Class} {t : PyType} {e : Err} (h : fillT cs t = .error e) :
    ∃ n, e = .keyError n ∧ n ∈ ctNamesT t ∧ lookupIdx cs n = none := by
  cases t with
  | basic n => simp only [fillT] at h; exact Except.noConfusion h
  | classType n c =>
    cases hl : lookupIdx cs n with
    | some i => simp only [fillT, hl] at h; exact Except.noConfusion h
    | none =>
      simp only [fillT, hl, Except.error.injEq] at h
      subst h
      exact ⟨n, rfl, by simp [ctNamesT], hl⟩
  | homogeneous b e2 =>
    cases hb : fillT cs b with
    | error err =>
      simp only [fillT, hb] at h
      cases h
      obtain ⟨n, rfl, hn, hidx⟩ := fillT_err hb
      exact ⟨n, rfl, by simp [ctNamesT, hn], hidx⟩
    | ok b' =>
      cases he : fillT cs e2 with
      | error err =>
        simp only [fillT, hb, he] at h
        cases h
        obtain ⟨n, rfl, hn, hidx⟩ := fillT_err he
        exact ⟨n, rfl, by simp [ctNamesT, hn], hidx⟩
      | ok e' => simp only [fillT, hb, he] at h; exact Except.noConfusion h
  | generic b ps =>
    cases hb : fillT cs b with
    | error err =>
      simp only [fillT, hb] at h
      cases h
      obtain ⟨n, rfl, hn, hidx⟩ := fillT_err hb
      exact ⟨n, rfl, by simp [ctNamesT, hn], hidx⟩
    | ok b' =>
      cases hp : fillTList cs ps with
      | error err =>
        simp only [fillT, hb, hp] at h
        cases h
        obtain ⟨n, rfl, hn, hidx⟩ := fillTList_err hp
        exact ⟨n, rfl, by simp [ctNamesT, hn], hidx⟩
      | ok ps' => simp only [fillT, hb, hp] at h; exact Except.noConfusion h
  | union ts =>
    cases hts : fillTList cs ts with
    | error err =>
      simp only [fillT, hts] at h
      cases h
      obtain ⟨n, rfl, hn, hidx⟩ := fillTList_err hts
      exact ⟨n, rfl, by simp [ctNamesT, hn], hidx⟩
    | ok ts' => simp only [fillT, hts] at h; exact Except.noConfusion h
  | intersection ts =>
    cases hts : fillTList cs ts with
    | error err =>
      simp only [fillT, hts] at h
      cases h
      obtain ⟨n, rfl, hn, hidx⟩ := fillTList_err hts
      exact ⟨n, rfl, by simp [ctNamesT, hn], hidx⟩
    | ok ts' => simp only [fillT, hts] at h; exact Except.noConfusion h

/-- List version of `fillT_err`. -/
theorem fillTList_err {cs : List Class} {ts : List PyType} {e : Err}
    (h : fillTList cs ts = .error e) :
    ∃ n, e = .keyError n ∧ n ∈ ctNamesTList ts ∧ lookupIdx cs n = none := by
  cases ts with
  | nil => simp only [fillTList] at h; exact Except.noConfusion h
  | cons t rest =>
    cases ht : fillT cs t with
    | error err =>
      simp only [fillTList, ht] at h
      cases h
      obtain ⟨n, rfl, hn, hidx⟩ := fillT_err ht
      exact ⟨n, rfl, by simp [ctNamesTList, hn], hidx⟩
    | ok t' =>
      cases hr : fillTList cs rest with
      | error err =>
        simp only [fillTList, ht, hr] at h
        cases h
        obtain ⟨n, rfl, hn, hidx⟩ := fillTList_err hr
        exact ⟨n, rfl, by simp [ctNamesTList, hn], hidx⟩
      | ok rest' => simp only [fillTList, ht, hr] at h; exact Except.noConfusion h

end

/-- Fill success on a parameter. -/
theorem fillParameter_ok {cs : List Class} {p p' : Parameter}
    (h : fillParameter cs p = .ok p') :
    filledParameter p' = true ∧ ∀ n ∈ ctNamesParameter p, (lookupIdx cs n).isSome = true := by
  cases ht : fillT cs p.type with
  | error err => simp only [fillParameter, ht] at h; exact Except.noConfusion h
  | ok t =>
    simp only [fillParameter, ht, Except.ok.injEq] at h
    subst h
    exact fillT_ok ht

/-- Fill failure on a parameter. -/
theorem fillParameter_err {cs : List Class} {p : Parameter} {e : Err}
    (h : fillParameter cs p = .error e) :
    ∃ n, e = .keyError n ∧ n ∈ ctNamesParameter p ∧ lookupIdx cs n = none := by
  cases ht : fillT cs p.type with
  | error err =>
    simp only [fillParameter, ht] at h
    cases h
    exact fillT_err ht
  | ok t => simp only [fillParameter, ht] at h; exact Except.noConfusion h

/-- Fill success on a parameter list. -/
theorem fillParameterList_ok {cs : List Class} {ps ps' : List Parameter}
    (h : fillParameterList cs ps = .ok ps') :
    ps'.all filledParameter = true ∧
    ∀ n ∈ ps.flatMap ctNamesParameter, (lookupIdx cs n).isSome = true := by
  induction ps generalizing ps' with
  | nil =>
    simp only [fillParameterList, Except.ok.injEq] at h
    subst h
    exact ⟨rfl, by simp⟩
  | cons p rest ih =>
    cases hp : fillParameter cs p with
    | error err => simp only [fillParameterList, hp] at h; exact Except.noConfusion h
    | ok p' =>
      cases hr : fillParameterList cs rest with
      | error err => simp only [fillParameterList, hp, hr] at h; exact Except.noConfusion h
      | ok rest' =>
        simp only [fillParameterList, hp, hr, Except.ok.injEq] at h
        subst h
        obtain ⟨f1, d1⟩ := fillParameter_ok hp
        obtain ⟨f2, d2⟩ := ih hr
        refine ⟨by simp [f1, f2], ?_⟩
        intro n hn
        rw [List.flatMap_cons] at hn
        rcases List.mem_append.mp hn with hn' | hn'
        · exact d1 n hn'
        · exact d2 n hn'

/-- Fill failure on a parameter list. -/
theorem fillParameterList_err {cs : List Class} {ps : List Parameter} {e : Err}
    (h : fillParameterList cs ps = .error e) :
    ∃ n, e = .keyError n ∧ n ∈ ps.flatMap ctNamesParameter ∧ lookupIdx cs n = none := by
  induction ps with
  | nil => simp only [fillParameterList] at h; exact Except.noConfusion h
  | cons p rest ih =>
    cases hp : fillParameter cs p with
    | error err =>
      simp only [fillParameterList, hp] at h
      cases h
      obtain ⟨n, rfl, hn, hidx⟩ := fillParameter_err hp
      exact ⟨n, rfl, by simp [hn], hidx⟩
    | ok p' =>
      cases hr : fillParameterList cs rest with
      | error err =>
        simp only [fillParameterList, hp, hr] at h
        cases h
        obtain ⟨n, rfl, hn, hidx⟩ := ih hr
        refine ⟨n, rfl, ?_, hidx⟩
        rw [List.flatMap_cons]
        exact List.mem_append_right _ hn
      | ok rest' => simp only [fillParameterList, hp, hr] at h; exact Except.noConfusion h

/-- Fill success on a template item. -/
theorem fillTemplateItem_ok {cs : List Class} {t t' : TemplateItem}
    (h : fillTemplateItem cs t = .ok t') :
    filledTemplateItem t' = true ∧
    ∀ n ∈ ctNamesTemplateItem t, (lookupIdx cs n).isSome = true := by
  cases ht : fillT cs t.within_type with
  | error err => simp only [fillTemplateItem, ht] at h; exact Except.noConfusion h
  | ok w =>
    simp only [fillTemplateItem, ht, Except.ok.injEq] at h
    subst h
    exact fillT_ok ht

/-- Fill failure on a template item. -/
theorem fillTemplateItem_err {cs : List Class} {t : TemplateItem} {e : Err}
    (h : fillTemplateItem cs t = .error e) :
    ∃ n, e = .keyError n ∧ n ∈ ctNamesTemplateItem t ∧ lookupIdx cs n = none := by
  cases ht : fillT cs t.within_type with
  | error err =>
    simp only [fillTemplateItem, ht] at h
    cases h
    exact fillT_err ht
  | ok w => simp only [fillTemplateItem, ht] at h; exact Except.noConfusion h

/-- Fill success on a template item list. -/
theorem fillTemplateItemList_ok {cs : List Class} {ts ts' : List TemplateItem}
    (h : fillTemplateItemList cs ts = .ok ts') :
    ts'.all filledTemplateItem = true ∧
    ∀ n ∈ ts.flatMap ctNamesTemplateItem, (lookupIdx cs n).isSome = true := by
  induction ts generalizing ts' with
  | nil =>
    simp only [fillTemplateItemList, Except.ok.injEq] at h
    subst h
    exact ⟨rfl, by simp⟩
  | cons t rest ih =>
    cases ht : fillTemplateItem cs t with
    | error err => simp only [fillTemplateItemList, ht] at h; exact Except.noConfusion h
    | ok t' =>
      cases hr : fillTemplateItemList cs rest with
      | error err =>
        simp only [fillTemplateItemList, ht, hr] at h; exact Except.noConfusion h
      | ok rest' =>
        simp only [fillTemplateItemList, ht, hr, Except.ok.injEq] at h
        subst h
        obtain ⟨f1, d1⟩ := fillTemplateItem_ok ht
        obtain ⟨f2, d2⟩ := ih hr
        refine ⟨by simp [f1, f2], ?_⟩
        intro n hn
        rw [List.flatMap_cons] at hn
        rcases List.mem_append.mp hn with hn' | hn'
        · exact d1 n hn'
        · exact d2 n hn'

/-- Fill failure on a template item list. -/
theorem fillTemplateItemList_err {cs : List Class} {ts : List TemplateItem} {e : Err}
    (h : fillTemplateItemList cs ts = .error e) :
    ∃ n, e = .keyError n ∧ n ∈ ts.flatMap ctNamesTemplateItem ∧ lookupIdx cs n = none := by
  induction ts with
  | nil => simp only [fillTemplateItemList] at h; exact Except.noConfusion h
  | cons t rest ih =>
    cases ht : fillTemplateItem cs t with
    | error err =>
      simp only [fillTemplateItemList, ht] at h
      cases h
      obtain ⟨n, rfl, hn, hidx⟩ := fillTemplateItem_err ht
      exact ⟨n, rfl, by simp [hn], hidx⟩
    | ok t' =>
      cases hr : fillTemplateItemList cs rest with
      | error err =>
        simp only [fillTemplateItemList, ht, hr] at h
        cases h
        obtain ⟨n, rfl, hn, hidx⟩ := ih hr
        refine ⟨n, rfl, ?_, hidx⟩
        rw [List.flatMap_cons]
        exact List.mem_append_right _ hn
      | ok rest' => simp only [fillTemplateItemList, ht, hr] at h; exact Except.noConfusion h

/-- Fill success on a signature. -/
theorem fillSignature_ok {cs : List Class} {s s' : Signature}
    (h : fillSignature cs s = .ok s') :
    filledSignature s' = true ∧
    ∀ n ∈ ctNamesSignature s, (lookupIdx cs n).isSome = true := by
  cases hp : fillParameterList cs s.params with
  | error err => simp only [fillSignature, hp] at h; exact Except.noConfusion h
  | ok ps =>
    cases hr : fillT cs s.return_type with
    | error err => simp only [fillSignature, hp, hr] at h; exact Except.noConfusion h
    | ok rt =>
      cases he : fillTList cs s.exceptions with
      | error err => simp only [fillSignature, hp, hr, he] at h; exact Except.noConfusion h
      | ok exc =>
        simp only [fillSignature, hp, hr, he, Except.ok.injEq] at h
        subst h
        obtain ⟨f1, d1⟩ := fillParameterList_ok hp
        obtain ⟨f2, d2⟩ := fillT_ok hr
        obtain ⟨f3, d3⟩ := fillTList_ok he
        refine ⟨by simp [filledSignature, f1, f2, f3], ?_⟩
        intro n hn
        simp only [ctNamesSignature, List.append_assoc, List.mem_append] at hn
        rcases hn with hn | hn | hn
        · exact d1 n hn
        · exact d2 n hn
        · exact d3 n hn

/-- Fill failure on a signature. -/
theorem fillSignature_err {cs : List Class} {s : Signature} {e : Err}
    (h : fillSignature cs s = .error e) :
    ∃ n, e = .keyError n ∧ n ∈ ctNamesSignature s ∧ lookupIdx cs n = none := by
  cases hp : fillParameterList cs s.params with
  | error err =>
    simp only [fillSignature, hp] at h
    cases h
    obtain ⟨n, rfl, hn, hidx⟩ := fillParameterList_err hp
    exact ⟨n, rfl, by simp [ctNamesSignature, hn], hidx⟩
  | ok ps =>
    cases hr : fillT cs s.return_type with
    | error err =>
      simp only [fillSignature, hp, hr] at h
      cases h
      obtain ⟨n, rfl, hn, hidx⟩ := fillT_err hr
      exact ⟨n, rfl, by simp [ctNamesSignature, hn], hidx⟩
    | ok rt =>
      cases he : fillTList cs s.exceptions with
      | error err =>
        simp only [fillSignature, hp, hr, he] at h
        cases h
        obtain ⟨n, rfl, hn, hidx⟩ := fillTList_err he
        exact ⟨n, rfl, by simp [ctNamesSignature, hn], hidx⟩
      | ok exc => simp only [fillSignature, hp, hr, he] at h; exact Except.noConfusion h

/-- Fill success on a signature list. -/
theorem fillSignatureList_ok {cs : List Class} {ss ss' : List Signature}
    (h : fillSignatureList cs ss = .ok ss') :
    ss'.all filledSignature = true ∧
    ∀ n ∈ ss.flatMap ctNamesSignature, (lookupIdx cs n).isSome = true := by
  induction ss generalizing ss' with
  | nil =>
    simp only [fillSignatureList, Except.ok.injEq] at h
    subst h
    exact ⟨rfl, by simp⟩
  | cons s rest ih =>
    cases hs : fillSignature cs s with
    | error err => simp only [fillSignatureList, hs] at h; exact Except.noConfusion h
    | ok s' =>
      cases hr : fillSignatureList cs rest with
      | error err => simp only [fillSignatureList, hs, hr] at h; exact Except.noConfusion h
      | ok rest' =>
        simp only [fillSignatureList, hs, hr, Except.ok.injEq] at h
        subst h
        obtain ⟨f1, d1⟩ := fillSignature_ok hs
        obtain ⟨f2, d2⟩ := ih hr
        refine ⟨by simp [f1, f2], ?_⟩
        intro n hn
        rw [List.flatMap_cons] at hn
        rcases List.mem_append.mp hn with hn' | hn'
        · exact d1 n hn'
        · exact d2 n hn'

/-- Fill failure on a signature list. -/
theorem fillSignatureList_err {cs : List Class} {ss : List Signature} {e : Err}
    (h : fillSignatureList cs ss = .error e) :
    ∃ n, e = .keyError n ∧ n ∈ ss.flatMap ctNamesSignature ∧ lookupIdx cs n = none := by
  induction ss with
  | nil => simp only [fillSignatureList] at h; exact Except.noConfusion h
  | cons s rest ih =>
    cases hs : fillSignature cs s with
    | error err =>
      simp only [fillSignatureList, hs] at h
      cases h
      obtain ⟨n, rfl, hn, hidx⟩ := fillSignature_err hs
      exact ⟨n, rfl, by simp [hn], hidx⟩
    | ok s' =>
      cases hr : fillSignatureList cs rest with
      | error err =>
        simp only [fillSignatureList, hs, hr] at h
        cases h
        obtain ⟨n, rfl, hn, hidx⟩ := ih hr
        refine ⟨n, rfl, ?_, hidx⟩
        rw [List.flatMap_cons]
        exact List.mem_append_right _ hn
      | ok rest' => simp only [fillSignatureList, hs, hr] at h; exact Except.noConfusion h

/-- Fill success on a function. -/
theorem fillFunction_ok {cs : List Class} {f f' : Function}
    (h : fillFunction cs f = .ok f') :
    filledFunction f' = true ∧
    ∀ n ∈ ctNamesFunction f, (lookupIdx cs n).isSome = true := by
  cases hs : fillSignatureList cs f.signatures with
  | error err => simp only [fillFunction, hs] at h; exact Except.noConfusion h
  | ok sigs =>
    simp only [fillFunction, hs, Except.ok.injEq] at h
    subst h
    exact fillSignatureList_ok hs

/-- Fill failure on a function. -/
theorem fillFunction_err {cs : List Class} {f : Function} {e : Err}
    (h : fillFunction cs f = .error e) :
    ∃ n, e = .keyError n ∧ n ∈ ctNamesFunction f ∧ lookupIdx cs n = none := by
  cases hs : fillSignatureList cs f.signatures with
  | error err =>
    simp only [fillFunction, hs] at h
    cases h
    exact fillSignatureList_err hs
  | ok sigs => simp only [fillFunction, hs] at h; exact Except.noConfusion h

/-- Fill success on a function list. -/
theorem fillFunctionList_ok {cs : List Class} {fs fs' : List Function}
    (h : fillFunctionList cs fs = .ok fs') :
    fs'.all filledFunction = true ∧
    ∀ n ∈ fs.flatMap ctNamesFunction, (lookupIdx cs n).isSome = true := by
  induction fs generalizing fs' with
  | nil =>
    simp only [fillFunctionList, Except.ok.injEq] at h
    subst h
    exact ⟨rfl, by simp⟩
  | cons f rest ih =>
    cases hf : fillFunction cs f with
    | error err => simp only [fillFunctionList, hf] at h; exact Except.noConfusion h
    | ok f' =>
      cases hr : fillFunctionList cs rest with
      | error err => simp only [fillFunctionList, hf, hr] at h; exact Except.noConfusion h
      | ok rest' =>
        simp only [fillFunctionList, hf, hr, Except.ok.injEq] at h
        subst h
        obtain ⟨f1, d1⟩ := fillFunction_ok hf
        obtain ⟨f2, d2⟩ := ih hr
        refine ⟨by simp [f1, f2], ?_⟩
        intro n hn
        rw [List.flatMap_cons] at hn
        rcases List.mem_append.mp hn with hn' | hn'
        · exact d1 n hn'
        · exact d2 n hn'

/-- Fill failure on a function list. -/
theorem fillFunctionList_err {cs : List Class} {fs : List Function} {e : Err}
    (h : fillFunctionList cs fs = .error e) :
    ∃ n, e = .keyError n ∧ n ∈ fs.flatMap ctNamesFunction ∧ lookupIdx cs n = none := by
  induction fs with
  | nil => simp only [fillFunctionList] at h; exact Except.noConfusion h
  | cons f rest ih =>
    cases hf : fillFunction cs f with
    | error err =>
      simp only [fillFunctionList, hf] at h
      cases h
      obtain ⟨n, rfl, hn, hidx⟩ := fillFunction_err hf
      exact ⟨n, rfl, by simp [hn], hidx⟩
    | ok f' =>
      cases hr : fillFunctionList cs rest with
      | error err =>
        simp only [fillFunctionList, hf, hr] at h
        cases h
        obtain ⟨n, rfl, hn, hidx⟩ := ih hr
        refine ⟨n, rfl, ?_, hidx⟩
        rw [List.flatMap_cons]
        exact List.mem_append_right _ hn
      | ok rest' => simp only [fillFunctionList, hf, hr] at h; exact Except.noConfusion h

/-- Fill success on a constant. -/
theorem fillConstant_ok {cs : List Class} {c c' : Constant}
    (h : fillConstant cs c = .ok c') :
    filledConstant c' = true ∧
    ∀ n ∈ ctNamesConstant c, (lookupIdx cs n).isSome = true := by
  cases ht : fillT cs c.type with
  | error err => simp only [fillConstant, ht] at h; exact Except.noConfusion h
  | ok t =>
    simp only [fillConstant, ht, Except.ok.injEq] at h
    subst h
    exact fillT_ok ht

/-- Fill failure on a constant. -/
theorem fillConstant_err {cs : List Class} {c : Constant} {e : Err}
    (h : fillConstant cs c = .error e) :
    ∃ n, e = .keyError n ∧ n ∈ ctNamesConstant c ∧ lookupIdx cs n = none := by
  cases ht : fillT cs c.type with
  | error err =>
    simp only [fillConstant, ht] at h
    cases h
    exact fillT_err ht
  | ok t => simp only [fillConstant, ht] at h; exact Except.noConfusion h

/-- Fill success on a constant list. -/
theorem fillConstantList_ok {cs : List Class} {cl cl' : List Constant}
    (h : fillConstantList cs cl = .ok cl') :
    cl'.all filledConstant = true ∧
    ∀ n ∈ cl.flatMap ctNamesConstant, (lookupIdx cs n).isSome = true := by
  induction cl generalizing cl' with
  | nil =>
    simp only [fillConstantList, Except.ok.injEq] at h
    subst h
    exact ⟨rfl, by simp⟩
  | cons c rest ih =>
    cases hc : fillConstant cs c with
    | error err => simp only [fillConstantList, hc] at h; exact Except.noConfusion h
    | ok c' =>
      cases hr : fillConstantList cs rest with
      | error err => simp only [fillConstantList, hc, hr] at h; exact Except.noConfusion h
      | ok rest' =>
        simp only [fillConstantList, hc, hr, Except.ok.injEq] at h
        subst h
        obtain ⟨f1, d1⟩ := fillConstant_ok hc
        obtain ⟨f2, d2⟩ := ih hr
        refine ⟨by simp [f1, f2], ?_⟩
        intro n hn
        rw [List.flatMap_cons] at hn
        rcases List.mem_append.mp hn with hn' | hn'
        · exact d1 n hn'
        · exact d2 n hn'

/-- Fill failure on a constant list. -/
theorem fillConstantList_err {cs : List Class} {cl : List Constant} {e : Err}
    (h : fillConstantList cs cl = .error e) :
    ∃ n, e = .keyError n ∧ n ∈ cl.flatMap ctNamesConstant ∧ lookupIdx cs n = none := by
  induction cl with
  | nil => simp only [fillConstantList] at h; exact Except.noConfusion h
  | cons c rest ih =>
    cases hc : fillConstant cs c with
    | error err =>
      simp only [fillConstantList, hc] at h
      cases h
      obtain ⟨n, rfl, hn, hidx⟩ := fillConstant_err hc
      exact ⟨n, rfl, by simp [hn], hidx⟩
    | ok c' =>
      cases hr : fillConstantList cs rest with
      | error err =>
        simp only [fillConstantList, hc, hr] at h
        cases h
        obtain ⟨n, rfl, hn, hidx⟩ := ih hr
        refine ⟨n, rfl, ?_, hidx⟩
        rw [List.flatMap_cons]
        exact List.mem_append_right _ hn
      | ok rest' => simp only [fillConstantList, hc, hr] at h; exact Except.noConfusion h

/-- Fill success on a class. -/
theorem fillClass_ok {cs : List Class} {c c' : Class}
    (h : fillClass cs c = .ok c') :
    filledClass c' = true ∧
    ∀ n ∈ ctNamesClass c, (lookupIdx cs n).isSome = true := by
  cases hct : c.template with
  | none =>
    cases hp : fillTList cs c.parents with
    | error err => simp only [fillClass, hct, hp] at h; exact Except.noConfusion h
    | ok prts =>
      cases hcs : fillConstantList cs c.constants with
      | error err => simp only [fillClass, hct, hp, hcs] at h; exact Except.noConfusion h
      | ok consts =>
        cases hm : fillFunctionList cs c.methods with
        | error err =>
          simp only [fillClass, hct, hp, hcs, hm] at h; exact Except.noConfusion h
        | ok meths =>
          simp only [fillClass, hct, hp, hcs, hm, Except.ok.injEq] at h
          subst h
          obtain ⟨f1, d1⟩ := fillTList_ok hp
          obtain ⟨f2, d2⟩ := fillConstantList_ok hcs
          obtain ⟨f3, d3⟩ := fillFunctionList_ok hm
          refine ⟨by simp [filledClass, f1, f2, f3], ?_⟩
          intro n hn
          simp only [ctNamesClass, hct, List.nil_append, List.append_assoc,
            List.mem_append] at hn
          rcases hn with hn | hn | hn
          · exact d1 n hn
          · exact d2 n hn
          · exact d3 n hn
  | some ts =>
    cases hti : fillTemplateItemList cs ts with
    | error err => simp only [fillClass, hct, hti] at h; exact Except.noConfusion h
    | ok ts' =>
      cases hp : fillTList cs c.parents with
      | error err => simp only [fillClass, hct, hti, hp] at h; exact Except.noConfusion h
      | ok prts =>
        cases hcs : fillConstantList cs c.constants with
        | error err =>
          simp only [fillClass, hct, hti, hp, hcs] at h; exact Except.noConfusion h
        | ok consts =>
          cases hm : fillFunctionList cs c.methods with
          | error err =>
            simp only [fillClass, hct, hti, hp, hcs, hm] at h; exact Except.noConfusion h
          | ok meths =>
            simp only [fillClass, hct, hti, hp, hcs, hm, Except.ok.injEq] at h
            subst h
            obtain ⟨f0, d0⟩ := fillTemplateItemList_ok hti
            obtain ⟨f1, d1⟩ := fillTList_ok hp
            obtain ⟨f2, d2⟩ := fillConstantList_ok hcs
            obtain ⟨f3, d3⟩ := fillFunctionList_ok hm
            refine ⟨by simp [filledClass, f0, f1, f2, f3], ?_⟩
            intro n hn
            simp only [ctNamesClass, hct, List.append_assoc, List.mem_append] at hn
            rcases hn with hn | hn | hn | hn
            · exact d0 n hn
            · exact d1 n hn
            · exact d2 n hn
            · exact d3 n hn

/-- Fill failure on a class. -/
theorem fillClass_err {cs : List Class} {c : Class} {e : Err}
    (h : fillClass cs c = .error e) :
    ∃ n, e = .keyError n ∧ n ∈ ctNamesClass c ∧ lookupIdx cs n = none := by
  cases hct : c.template with
  | none =>
    cases hp : fillTList cs c.parents with
    | error err =>
      simp only [fillClass, hct, hp] at h
      cases h
      obtain ⟨n, rfl, hn, hidx⟩ := fillTList_err hp
      exact ⟨n, rfl, by simp [ctNamesClass, hct, hn], hidx⟩
    | ok prts =>
      cases hcs : fillConstantList cs c.constants with
      | error err =>
        simp only [fillClass, hct, hp, hcs] at h
        cases h
        obtain ⟨n, rfl, hn, hidx⟩ := fillConstantList_err hcs
        exact ⟨n, rfl, by simp [ctNamesClass, hct, hn], hidx⟩
      | ok consts =>
        cases hm : fillFunctionList cs c.methods with
        | error err =>
          simp only [fillClass, hct, hp, hcs, hm] at h
          cases h
          obtain ⟨n, rfl, hn, hidx⟩ := fillFunctionList_err hm
          exact ⟨n, rfl, by simp [ctNamesClass, hct, hn], hidx⟩
        | ok meths => simp only [fillClass, hct, hp, hcs, hm] at h; exact Except.noConfusion h
  | some ts =>
    cases hti : fillTemplateItemList cs ts with
    | error err =>
      simp only [fillClass, hct, hti] at h
      cases h
      obtain ⟨n, rfl, hn, hidx⟩ := fillTemplateItemList_err hti
      exact ⟨n, rfl, by simp [ctNamesClass, hct, hn], hidx⟩
    | ok ts' =>
      cases hp : fillTList cs c.parents with
      | error err =>
        simp only [fillClass, hct, hti, hp] at h
        cases h
        obtain ⟨n, rfl, hn, hidx⟩ := fillTList_err hp
        exact ⟨n, rfl, by simp [ctNamesClass, hct, hn], hidx⟩
      | ok prts =>
        cases hcs : fillConstantList cs c.constants with
        | error err =>
          simp only [fillClass, hct, hti, hp, hcs] at h
          cases h
          obtain ⟨n, rfl, hn, hidx⟩ := fillConstantList_err hcs
          exact ⟨n, rfl, by simp [ctNamesClass, hct, hn], hidx⟩
        | ok consts =>
          cases hm : fillFunctionList cs c.methods with
          | error err =>
            simp only [fillClass, hct, hti, hp, hcs, hm] at h
            cases h
            obtain ⟨n, rfl, hn, hidx⟩ := fillFunctionList_err hm
            exact ⟨n, rfl, by simp [ctNamesClass, hct, hn], hidx⟩
          | ok meths =>
            simp only [fillClass, hct, hti, hp, hcs, hm] at h; exact Except.noConfusion h

/-- Fill success on a class list. -/
theorem fillClassList_ok {cs : List Class} {cl cl' : List Class}
    (h : fillClassList cs cl = .ok cl') :
    cl'.all filledClass = true ∧
    ∀ n ∈ cl.flatMap ctNamesClass, (lookupIdx cs n).isSome = true := by
  induction cl generalizing cl' with
  | nil =>
    simp only [fillClassList, Except.ok.injEq] at h
    subst h
    exact ⟨rfl, by simp⟩
  | cons c rest ih =>
    cases hc : fillClass cs c with
    | error err => simp only [fillClassList, hc] at h; exact Except.noConfusion h
    | ok c' =>
      cases hr : fillClassList cs rest with
      | error err => simp only [fillClassList, hc, hr] at h; exact Except.noConfusion h
      | ok rest' =>
        simp only [fillClassList, hc, hr, Except.ok.injEq] at h
        subst h
        obtain ⟨f1, d1⟩ := fillClass_ok hc
        obtain ⟨f2, d2⟩ := ih hr
        refine ⟨by simp [f1, f2], ?_⟩
        intro n hn
        rw [List.flatMap_cons] at hn
        rcases List.mem_append.mp hn with hn' | hn'
        · exact d1 n hn'
        · exact d2 n hn'

/-- Fill failure on a class list. -/
theorem fillClassList_err {cs : List Class} {cl : List Class} {e : Err}
    (h : fillClassList cs cl = .error e) :
    ∃ n, e = .keyError n ∧ n ∈ cl.flatMap ctNamesClass ∧ lookupIdx cs n = none := by
  induction cl with
  | nil => simp only [fillClassList] at h; exact Except.noConfusion h
  | cons c rest ih =>
    cases hc : fillClass cs c with
    | error err =>
      simp only [fillClassList, hc] at h
      cases h
      obtain ⟨n, rfl, hn, hidx⟩ := fillClass_err hc
      exact ⟨n, rfl, by simp [hn], hidx⟩
    | ok c' =>
      cases hr : fillClassList cs rest with
      | error err =>
        simp only [fillClassList, hc, hr] at h
        cases h
        obtain ⟨n, rfl, hn, hidx⟩ := ih hr
        refine ⟨n, rfl, ?_, hidx⟩
        rw [List.flatMap_cons]
        exact List.mem_append_right _ hn
      | ok rest' => simp only [fillClassList, hc, hr] at h; exact Except.noConfusion h

/-- Fill success on a whole module. -/
theorem fillUnit_ok {cs : List Class} {u u' : TypeDeclUnit}
    (h : fillUnit cs u = .ok u') :
    filledUnit u' = true ∧
    ∀ n ∈ ctNamesUnit u, (lookupIdx cs n).isSome = true := by
  cases hc : fillConstantList cs u.constants with
  | error err => simp only [fillUnit, hc] at h; exact Except.noConfusion h
  | ok consts =>
    cases hf : fillFunctionList cs u.functions with
    | error err => simp only [fillUnit, hc, hf] at h; exact Except.noConfusion h
    | ok fns =>
      cases hcl : fillClassList cs u.classes with
      | error err => simp only [fillUnit, hc, hf, hcl] at h; exact Except.noConfusion h
      | ok cls =>
        simp only [fillUnit, hc, hf, hcl, Except.ok.injEq] at h
        subst h
        obtain ⟨f1, d1⟩ := fillConstantList_ok hc
        obtain ⟨f2, d2⟩ := fillFunctionList_ok hf
        obtain ⟨f3, d3⟩ := fillClassList_ok hcl
        refine ⟨by simp [filledUnit, f1, f2, f3], ?_⟩
        intro n hn
        simp only [ctNamesUnit, List.append_assoc, List.mem_append] at hn
        rcases hn with hn | hn | hn
        · exact d1 n hn
        · exact d2 n hn
        · exact d3 n hn

/-- Fill failure on a whole module. -/
theorem fillUnit_err {cs : List Class} {u : TypeDeclUnit} {e : Err}
    (h : fillUnit cs u = .error e) :
    ∃ n, e = .keyError n ∧ n ∈ ctNamesUnit u ∧ lookupIdx cs n = none := by
  cases hc : fillConstantList cs u.constants with
  | error err =>
    simp only [fillUnit, hc] at h
    cases h
    obtain ⟨n, rfl, hn, hidx⟩ := fillConstantList_err hc
    exact ⟨n, rfl, by simp [ctNamesUnit, hn], hidx⟩
  | ok consts =>
    cases hf : fillFunctionList cs u.functions with
    | error err =>
      simp only [fillUnit, hc, hf] at h
      cases h
      obtain ⟨n, rfl, hn, hidx⟩ := fillFunctionList_err hf
      exact ⟨n, rfl, by simp [ctNamesUnit, hn], hidx⟩
    | ok fns =>
      cases hcl : fillClassList cs u.classes with
      | error err =>
        simp only [fillUnit, hc, hf, hcl] at h
        cases h
        obtain ⟨n, rfl, hn, hidx⟩ := fillClassList_err hcl
        exact ⟨n, rfl, by simp [ctNamesUnit, hn], hidx⟩
      | ok cls => simp only [fillUnit, hc, hf, hcl] at h; exact Except.noConfusion h

/-! ## Theorems -/

/-- C1: after the two-stage class resolution (`LookupClasses` running
`FillInClasses`) on a module with two mutually referencing classes, the
link cell inside class A's field holds exactly the position at which
the class named `nB` sits in the module's class list (and symmetrically
for B's field and `nA`): object identity, modelled as index identity,
not just name equality. -/
theorem mutual_references_resolve_to_identical_objects
    (nA nB fa fb : String) (h : nA ≠ nB) :
    ∃ m', LookupClasses ⟨[], [], [⟨nA, none, [], [⟨fa, .basic nB⟩], []⟩,
                                  ⟨nB, none, [], [⟨fb, .basic nA⟩], []⟩]⟩ = .ok m' ∧
      m'.classes = [⟨nA, none, [], [⟨fa, .classType nB (some 1)⟩], []⟩,
                    ⟨nB, none, [], [⟨fb, .classType nA (some 0)⟩], []⟩] ∧
      lookupIdx m'.classes nB = some 1 ∧ lookupIdx m'.classes nA = some 0 := by
  have hba : (nB == nA) = false := by simp [h.symm]
  have hab : (nA == nB) = false := by simp [h]
  refine ⟨⟨[], [], [⟨nA, none, [], [⟨fa, .classType nB (some 1)⟩], []⟩,
                    ⟨nB, none, [], [⟨fb, .classType nA (some 0)⟩], []⟩]⟩, ?_, rfl, ?_, ?_⟩ <;>
    simp [LookupClasses, convUnit, convClass, convConstant, convParameter, convT,
      convTList, fillUnit, fillConstantList, fillFunctionList, fillClassList,
      fillClass, fillTList, fillConstant, fillT, lookupIdx,
      hba, hab]

/-- Witness for C1 at concrete names. -/
theorem mutual_references_resolve_to_identical_objects_witness :
    ∃ m', LookupClasses ⟨[], [], [⟨"A", none, [], [⟨"x", .basic "B"⟩], []⟩,
                                  ⟨"B", none, [], [⟨"y", .basic "A"⟩], []⟩]⟩ = .ok m' ∧
      m'.classes = [⟨"A", none, [], [⟨"x", .classType "B" (some 1)⟩], []⟩,
                    ⟨"B", none, [], [⟨"y", .classType "A" (some 0)⟩], []⟩] ∧
      lookupIdx m'.classes "B" = some 1 ∧ lookupIdx m'.classes "A" = some 0 :=
  mutual_references_resolve_to_identical_objects "A" "B" "x" "y" (by decide)

/-- C8 counterexample: on a method whose signature has an empty
parameter list, `StripSelf` leaves the signature unchanged, so the
parameter list is not one element shorter. -/
theorem strip_self_zero_params_cex :
    StripSelfClass ⟨"A", none, [], [], [⟨"m", [⟨[], .basic "object", [], false⟩]⟩]⟩ =
      ⟨"A", none, [], [], [⟨"m", [⟨[], .basic "object", [], false⟩]⟩]⟩ ∧
    ¬ ((StripSignature ⟨[], .basic "object", [], false⟩).params.length + 1 =
       ([] : List Parameter).length) := by
  exact ⟨rfl, by decide⟩

/-- C8 amended: for every class, method and signature, `StripSelf`
keeps the function name, return type, exception list and variadic
marker and replaces the parameter list by its tail; when the original
parameter list is nonempty this is exactly one element shorter (the
leading parameter removed), and a signature with no parameters is
returned unchanged. -/
theorem strip_self_removes_exactly_leading_param
    (c : Class) (i j : Nat) (f : Function) (s : Signature)
    (hf : c.methods[i]? = some f) (hs : f.signatures[j]? = some s) :
    ∃ f' s', (StripSelfClass c).methods[i]? = some f' ∧
      f'.signatures[j]? = some s' ∧
      f'.name = f.name ∧
      s'.params = s.params.tail ∧
      s'.return_type = s.return_type ∧
      s'.exceptions = s.exceptions ∧
      s'.has_optional = s.has_optional ∧
      (s.params ≠ [] → s'.params.length + 1 = s.params.length) := by
  refine ⟨StripFunction f, StripSignature s, ?_, ?_, rfl, ?_, rfl, rfl, rfl, ?_⟩
  · simp [StripSelfClass, hf]
  · simp [StripFunction, hs]
  · simp [StripSignature, List.drop_one]
  · intro hne
    have hpos : 0 < s.params.length := List.length_pos.mpr hne
    simp [StripSignature]
    omega

/-- Witness for C8's amended theorem at a concrete class. -/
theorem strip_self_removes_exactly_leading_param_witness :
    ∃ f' s', (StripSelfClass ⟨"A", none, [],
        [], [⟨"m", [⟨[⟨"self", .basic "A"⟩, ⟨"y", .basic "int"⟩],
                     .basic "int", [.basic "ValueError"], false⟩]⟩]⟩).methods[0]? = some f' ∧
      f'.signatures[0]? = some s' ∧
      f'.name = "m" ∧
      s'.params = ([⟨"self", .basic "A"⟩, ⟨"y", .basic "int"⟩] : List Parameter).tail ∧
      s'.return_type = .basic "int" ∧
      s'.exceptions = [.basic "ValueError"] ∧
      s'.has_optional = false ∧
      (([⟨"self", .basic "A"⟩, ⟨"y", .basic "int"⟩] : List Parameter) ≠ [] →
        s'.params.length + 1 =
          ([⟨"self", .basic "A"⟩, ⟨"y", .basic "int"⟩] : List Parameter).length) :=
  strip_self_removes_exactly_leading_param
    ⟨"A", none, [], [], [⟨"m", [⟨[⟨"self", .basic "A"⟩, ⟨"y", .basic "int"⟩],
      .basic "int", [.basic "ValueError"], false⟩]⟩]⟩ 0 0
    ⟨"m", [⟨[⟨"self", .basic "A"⟩, ⟨"y", .basic "int"⟩],
      .basic "int", [.basic "ValueError"], false⟩]⟩
    ⟨[⟨"self", .basic "A"⟩, ⟨"y", .basic "int"⟩],
      .basic "int", [.basic "ValueError"], false⟩ rfl rfl

/-- C9 counterexample: a one-element union of the "any" type is a type
distinct from the "any" type itself, yet its rendering is the text
`object`, so the parameter annotation is omitted for it as well. -/
theorem render_other_type_omits_annotation_cex :
    renderParameter [] ⟨"x", .union [.basic "object"]⟩ = some "x" ∧
    PyType.union [.basic "object"] ≠ PyType.basic "object" := by
  refine ⟨by decide, ?_⟩
  intro h
  exact PyType.noConfusion h

/-- C9 amended: the renderer omits a parameter annotation and the
return-type suffix exactly when the type's rendered text is `object`
(the rendering of the universal "any" type `BasicType("object")`); any
type rendering to different text gets the annotation / suffix. -/
theorem render_object_text_governs_annotation (env : List Class) (nm : String)
    (t : PyType) (ts : String) (h : renderT env t = some ts) :
    renderParameter env ⟨nm, .basic "object"⟩ = some nm ∧
    renderParameter env ⟨nm, t⟩ =
      some (if ts = "object" then nm else nm ++ ": " ++ ts) ∧
    ∀ ps exc opt psr excr,
      renderParameterList env ps = some psr →
      renderTList env exc = some excr →
      renderSignature env ⟨ps, t, exc, opt⟩ =
        some ("(" ++ String.intercalate ", " (psr ++ (if opt then ["..."] else [])) ++ ")"
          ++ (if ts = "object" then "" else " -> " ++ ts)
          ++ (if excr ≠ [] then " raises " ++ String.intercalate ", " excr else "")) := by
  have hobj : SafeName "object" = "object" := by decide
  refine ⟨?_, ?_, ?_⟩
  · simp [renderParameter, renderT, hobj]
  · by_cases hts : ts = "object" <;> simp [renderParameter, h, hts]
  · intro ps exc opt psr excr hps hexc
    by_cases hts : ts = "object" <;>
      simp [renderSignature, h, hps, hexc, hts]

/-- Witness for C9's amended theorem at a concrete annotated type. -/
theorem render_object_text_governs_annotation_witness :
    renderParameter [] ⟨"x", .basic "object"⟩ = some "x" ∧
    renderParameter [] ⟨"x", .basic "int"⟩ =
      some (if "int" = "object" then "x" else "x" ++ ": " ++ "int") ∧
    ∀ ps exc opt psr excr,
      renderParameterList [] ps = some psr →
      renderTList [] exc = some excr →
      renderSignature [] ⟨ps, .basic "int", exc, opt⟩ =
        some ("(" ++ String.intercalate ", " (psr ++ (if opt then ["..."] else [])) ++ ")"
          ++ (if "int" = "object" then "" else " -> " ++ "int")
          ++ (if excr ≠ [] then " raises " ++ String.intercalate ", " excr else "")) :=
  render_object_text_governs_annotation [] "x" (.basic "int") "int" (by decide)

/-- Appending one more element to a nonempty intercalation appends one
more separator-prefixed piece. -/
theorem intercalate_go_append (acc sep x : String) (l : List String) :
    String.intercalate.go acc sep (l ++ [x]) = String.intercalate.go acc sep l ++ sep ++ x := by
  induction l generalizing acc with
  | nil => rfl
  | cons a as ih =>
    simp only [List.cons_append, String.intercalate.go]
    exact ih _

/-- `String.intercalate` over a nonempty list with one appended element. -/
theorem intercalate_concat (sep x h : String) (l : List String) :
    String.intercalate sep (h :: (l ++ [x])) = String.intercalate sep (h :: l) ++ sep ++ x :=
  intercalate_go_append h sep x l

/-- C10: a class with zero methods renders with an indented `pass` line
as the last line of its body even when it has constants: the body is
the indented constants followed by `    pass`. -/
theorem class_without_methods_renders_pass_line
    (env : List Class) (c : Class) (hm : c.methods = [])
    (tmpl prts consts : List String)
    (ht : renderTemplateItemList env (c.template.getD []) = some tmpl)
    (hp : renderTList env c.parents = some prts)
    (hc : renderConstantList env c.constants = some consts) :
    renderClass env c =
      some (String.intercalate "\n"
          (("class " ++ SafeName c.name
              ++ (if tmpl ≠ [] then "<" ++ String.intercalate ", " tmpl ++ ">" else "")
              ++ (if prts ≠ [] then "(" ++ String.intercalate ", " prts ++ ")" else "")
              ++ ":") :: consts.map (fun m => INDENT ++ m))
        ++ "\n" ++ INDENT ++ "pass" ++ "\n") := by
  have hml : renderFunctionList env c.methods = some [] := by
    rw [hm]; rfl
  simp only [renderClass, ht, hp, hc, hml, ne_eq, not_true_eq_false, if_false,
    List.cons_append, List.nil_append]
  rw [intercalate_concat]
  simp [String.append_assoc]

/-- Witness for C10 at a concrete class with one constant and no
methods. -/
theorem class_without_methods_renders_pass_line_witness :
    renderClass [] ⟨"A", none, [], [⟨"x", .basic "int"⟩], []⟩ =
      some (String.intercalate "\n"
          (("class " ++ SafeName "A"
              ++ (if ([] : List String) ≠ [] then "<" ++ String.intercalate ", " [] ++ ">" else "")
              ++ (if ([] : List String) ≠ [] then "(" ++ String.intercalate ", " [] ++ ")" else "")
              ++ ":") :: (["x: int"].map (fun m => INDENT ++ m)))
        ++ "\n" ++ INDENT ++ "pass" ++ "\n") :=
  class_without_methods_renders_pass_line [] ⟨"A", none, [], [⟨"x", .basic "int"⟩], []⟩
    rfl [] [] ["x: int"] rfl rfl (by decide)

/-! ## Invariants of the instantiation cache -/

/-- Invariant of the memoization cache: keys are distinct, every cached
class carries its canonical name and an empty template. -/
def CacheOk (cache : Cache) : Prop :=
  (cache.map Prod.fst).Nodup ∧ ∀ p ∈ cache, p.2.name = p.1 ∧ p.2.template = none

/-- How one step of the engine may change the cache: append-only, and
invariant-preserving. -/
def CacheStep (x y : Cache) : Prop :=
  (∃ tail, y = x ++ tail) ∧ (CacheOk x → CacheOk y)

theorem CacheStep.rfl {x : Cache} : CacheStep x x :=
  ⟨⟨[], by simp⟩, fun h => h⟩

theorem CacheStep.trans {x y z : Cache} (h1 : CacheStep x y) (h2 : CacheStep y z) :
    CacheStep x z := by
  obtain ⟨⟨t1, e1⟩, i1⟩ := h1
  obtain ⟨⟨t2, e2⟩, i2⟩ := h2
  exact ⟨⟨t1 ++ t2, by rw [e2, e1, List.append_assoc]⟩, fun h => i2 (i1 h)⟩

/-- A `none` result of `cacheLookup` means the key is absent. -/
theorem cacheLookup_eq_none {cache : Cache} {k : String}
    (h : cacheLookup cache k = none) : ∀ p ∈ cache, p.1 ≠ k := by
  induction cache with
  | nil => intro p hp; cases hp
  | cons q rest ih =>
    intro p hp
    simp only [cacheLookup] at h
    by_cases hq : q.1 == k
    · rw [if_pos hq] at h; cases h
    · rw [if_neg hq] at h
      rcases List.mem_cons.mp hp with rfl | hp'
      · exact fun hk => hq (by simp [hk])
      · exact ih h p hp'

/-- Inserting a fresh canonical entry preserves the cache invariant. -/
theorem CacheStep.push {x : Cache} {nm : String} {cls : Class}
    (habs : cacheLookup x nm = none) (hname : cls.name = nm)
    (htm : cls.template = none) : CacheStep x (x ++ [(nm, cls)]) := by
  refine ⟨⟨[(nm, cls)], Eq.refl _⟩, fun h => ?_⟩
  obtain ⟨hnd, hall⟩ := h
  constructor
  · simp only [List.map_append, List.map_cons, List.map_nil]
    rw [List.nodup_append]
    refine ⟨hnd, List.nodup_singleton _, ?_⟩
    intro a ha hb
    simp only [List.mem_singleton] at hb
    subst hb
    obtain ⟨p, hp, hpk⟩ := List.mem_map.mp ha
    exact cacheLookup_eq_none habs p hp hpk
  · intro p hp
    rcases List.mem_append.mp hp with hp | hp
    · exact hall p hp
    · simp only [List.mem_singleton] at hp
      subst hp
      exact ⟨hname, htm⟩

/-- A successfully instantiated class carries the requested canonical
name and an empty template list. -/
theorem InstantiateClass_ok_shape {st : List Class} {name : String} {base : PyType}
    {elems : List PyType} {cls : Class}
    (h : InstantiateClass st name base elems = .ok cls) :
    cls.name = name ∧ cls.template = none := by
  cases base with
  | basic btn =>
    simp only [InstantiateClass] at h
    split at h
    · exact Except.noConfusion h
    · split at h
      · exact Except.noConfusion h
      · cases h; simp [replaceClass]
  | classType n c => simp only [InstantiateClass] at h; exact Except.noConfusion h
  | homogeneous b e => simp only [InstantiateClass] at h; exact Except.noConfusion h
  | generic b ps => simp only [InstantiateClass] at h; exact Except.noConfusion h
  | union ts => simp only [InstantiateClass] at h; exact Except.noConfusion h
  | intersection ts => simp only [InstantiateClass] at h; exact Except.noConfusion h

mutual

/-- The type-level instantiation traversal only appends to the cache
and preserves its invariant. -/
theorem instT_cache_step (st : List Class) (t : PyType) (cache : Cache) :
    CacheStep cache (instT st t cache).2 := by
  cases t with
  | basic n => exact CacheStep.rfl
  | classType n c => exact CacheStep.rfl
  | homogeneous b e =>
    have Hb := instT_cache_step st b cache
    cases hb : instT st b cache with
    | mk rb c1 =>
      rw [hb] at Hb
      cases rb with
      | error err => simpa [instT, hb] using Hb
      | ok b' =>
        have He := instT_cache_step st e c1
        cases he : instT st e c1 with
        | mk re c2 =>
          rw [he] at He
          cases re with
          | error err => simpa [instT, hb, he] using Hb.trans He
          | ok e' =>
            cases hrb : renderT st b' with
            | none => simpa [instT, hb, he, hrb] using Hb.trans He
            | some bs =>
              cases hre : renderT st e' with
              | none => simpa [instT, hb, he, hrb, hre] using Hb.trans He
              | some es =>
                cases hcl : cacheLookup c2 (bs ++ "<" ++ es ++ ">") with
                | some cls => simpa [instT, hb, he, hrb, hre, hcl] using Hb.trans He
                | none =>
                  cases hic : InstantiateClass st (bs ++ "<" ++ es ++ ">") b' [e'] with
                  | error err => simpa [instT, hb, he, hrb, hre, hcl, hic] using Hb.trans He
                  | ok cls =>
                    have hshape := InstantiateClass_ok_shape hic
                    have hpush := CacheStep.push hcl hshape.1 hshape.2
                    simpa [instT, hb, he, hrb, hre, hcl, hic] using
                      (Hb.trans He).trans hpush
  | generic b ps =>
    have Hb := instT_cache_step st b cache
    cases hb : instT st b cache with
    | mk rb c1 =>
      rw [hb] at Hb
      cases rb with
      | error err => simpa [instT, hb] using Hb
      | ok b' =>
        have Hp := instTList_cache_step st ps c1
        cases hp : instTList st ps c1 with
        | mk rp c2 =>
          rw [hp] at Hp
          cases rp with
          | error err => simpa [instT, hb, hp] using Hb.trans Hp
          | ok ps' => simpa [instT, hb, hp] using Hb.trans Hp
  | union ts =>
    have Hts := instTList_cache_step st ts cache
    cases hts : instTList st ts cache with
    | mk rts c1 =>
      rw [hts] at Hts
      cases rts with
      | error err => simpa [instT, hts] using Hts
      | ok ts' => simpa [instT, hts] using Hts
  | intersection ts =>
    have Hts := instTList_cache_step st ts cache
    cases hts : instTList st ts cache with
    | mk rts c1 =>
      rw [hts] at Hts
      cases rts with
      | error err => simpa [instT, hts] using Hts
      | ok ts' => simpa [instT, hts] using Hts

/-- List version of `instT_cache_step`. -/
theorem instTList_cache_step (st : List Class) (ts : List PyType) (cache : Cache) :
    CacheStep cache (instTList st ts cache).2 := by
  cases ts with
  | nil => exact CacheStep.rfl
  | cons t rest =>
    have Ht := instT_cache_step st t cache
    cases ht : instT st t cache with
    | mk rt c1 =>
      rw [ht] at Ht
      cases rt with
      | error err => simpa [instTList, ht] using Ht
      | ok t' =>
        have Hr := instTList_cache_step st rest c1
        cases hr : instTList st rest c1 with
        | mk rr c2 =>
          rw [hr] at Hr
          cases rr with
          | error err => simpa [instTList, ht, hr] using Ht.trans Hr
          | ok rest' => simpa [instTList, ht, hr] using Ht.trans Hr

end

/-- Cache behaviour of `instParameter`. -/
theorem instParameter_cache_step (st : List Class) (p : Parameter) (cache : Cache) :
    CacheStep cache (instParameter st p cache).2 := by
  have H := instT_cache_step st p.type cache
  cases h : instT st p.type cache with
  | mk r c1 =>
    rw [h] at H
    cases r with
    | error err => simpa [instParameter, h] using H
    | ok t => simpa [instParameter, h] using H

/-- Cache behaviour of `instParameterList`. -/
theorem instParameterList_cache_step (st : List Class) (ps : List Parameter) (cache : Cache) :
    CacheStep cache (instParameterList st ps cache).2 := by
  induction ps generalizing cache with
  | nil => exact CacheStep.rfl
  | cons p rest ih =>
    have Hp := instParameter_cache_step st p cache
    cases hp : instParameter st p cache with
    | mk r c1 =>
      rw [hp] at Hp
      cases r with
      | error err => simpa [instParameterList, hp] using Hp
      | ok p' =>
        have Hr := ih c1
        cases hr : instParameterList st rest c1 with
        | mk rr c2 =>
          rw [hr] at Hr
          cases rr with
          | error err => simpa [instParameterList, hp, hr] using Hp.trans Hr
          | ok rest' => simpa [instParameterList, hp, hr] using Hp.trans Hr

/-- Cache behaviour of `instTemplateItem`. -/
theorem instTemplateItem_cache_step (st : List Class) (t : TemplateItem) (cache : Cache) :
    CacheStep cache (instTemplateItem st t cache).2 := by
  have H := instT_cache_step st t.within_type cache
  cases h : instT st t.within_type cache with
  | mk r c1 =>
    rw [h] at H
    cases r with
    | error err => simpa [instTemplateItem, h] using H
    | ok w => simpa [instTemplateItem, h] using H

/-- Cache behaviour of `instTemplateItemList`. -/
theorem instTemplateItemList_cache_step (st : List Class) (ts : List TemplateItem)
    (cache : Cache) : CacheStep cache (instTemplateItemList st ts cache).2 := by
  induction ts generalizing cache with
  | nil => exact CacheStep.rfl
  | cons t rest ih =>
    have Ht := instTemplateItem_cache_step st t cache
    cases ht : instTemplateItem st t cache with
    | mk r c1 =>
      rw [ht] at Ht
      cases r with
      | error err => simpa [instTemplateItemList, ht] using Ht
      | ok t' =>
        have Hr := ih c1
        cases hr : instTemplateItemList st rest c1 with
        | mk rr c2 =>
          rw [hr] at Hr
          cases rr with
          | error err => simpa [instTemplateItemList, ht, hr] using Ht.trans Hr
          | ok rest' => simpa [instTemplateItemList, ht, hr] using Ht.trans Hr

/-- Cache behaviour of `instSignature`. -/
theorem instSignature_cache_step (st : List Class) (s : Signature) (cache : Cache) :
    CacheStep cache (instSignature st s cache).2 := by
  have Hp := instParameterList_cache_step st s.params cache
  cases hp : instParameterList st s.params cache with
  | mk rp c1 =>
    rw [hp] at Hp
    cases rp with
    | error err => simpa [instSignature, hp] using Hp
    | ok ps =>
      have Hr := instT_cache_step st s.return_type c1
      cases hr : instT st s.return_type c1 with
      | mk rr c2 =>
        rw [hr] at Hr
        cases rr with
        | error err => simpa [instSignature, hp, hr] using Hp.trans Hr
        | ok rt =>
          have He := instTList_cache_step st s.exceptions c2
          cases he : instTList st s.exceptions c2 with
          | mk re c3 =>
            rw [he] at He
            cases re with
            | error err => simpa [instSignature, hp, hr, he] using (Hp.trans Hr).trans He
            | ok exc => simpa [instSignature, hp, hr, he] using (Hp.trans Hr).trans He

/-- Cache behaviour of `instSignatureList`. -/
theorem instSignatureList_cache_step (st : List Class) (ss : List Signature) (cache : Cache) :
    CacheStep cache (instSignatureList st ss cache).2 := by
  induction ss generalizing cache with
  | nil => exact CacheStep.rfl
  | cons s rest ih =>
    have Hs := instSignature_cache_step st s cache
    cases hs : instSignature st s cache with
    | mk r c1 =>
      rw [hs] at Hs
      cases r with
      | error err => simpa [instSignatureList, hs] using Hs
      | ok s' =>
        have Hr := ih c1
        cases hr : instSignatureList st rest c1 with
        | mk rr c2 =>
          rw [hr] at Hr
          cases rr with
          | error err => simpa [instSignatureList, hs, hr] using Hs.trans Hr
          | ok rest' => simpa [instSignatureList, hs, hr] using Hs.trans Hr

/-- Cache behaviour of `instFunction`. -/
theorem instFunction_cache_step (st : List Class) (f : Function) (cache : Cache) :
    CacheStep cache (instFunction st f cache).2 := by
  have H := instSignatureList_cache_step st f.signatures cache
  cases h : instSignatureList st f.signatures cache with
  | mk r c1 =>
    rw [h] at H
    cases r with
    | error err => simpa [instFunction, h] using H
    | ok sigs => simpa [instFunction, h] using H

/-- Cache behaviour of `instFunctionList`. -/
theorem instFunctionList_cache_step (st : List Class) (fs : List Function) (cache : Cache) :
    CacheStep cache (instFunctionList st fs cache).2 := by
  induction fs generalizing cache with
  | nil => exact CacheStep.rfl
  | cons f rest ih =>
    have Hf := instFunction_cache_step st f cache
    cases hf : instFunction st f cache with
    | mk r c1 =>
      rw [hf] at Hf
      cases r with
      | error err => simpa [instFunctionList, hf] using Hf
      | ok f' =>
        have Hr := ih c1
        cases hr : instFunctionList st rest c1 with
        | mk rr c2 =>
          rw [hr] at Hr
          cases rr with
          | error err => simpa [instFunctionList, hf, hr] using Hf.trans Hr
          | ok rest' => simpa [instFunctionList, hf, hr] using Hf.trans Hr

/-- Cache behaviour of `instConstant`. -/
theorem instConstant_cache_step (st : List Class) (c : Constant) (cache : Cache) :
    CacheStep cache (instConstant st c cache).2 := by
  have H := instT_cache_step st c.type cache
  cases h : instT st c.type cache with
  | mk r c1 =>
    rw [h] at H
    cases r with
    | error err => simpa [instConstant, h] using H
    | ok t => simpa [instConstant, h] using H

/-- Cache behaviour of `instConstantList`. -/
theorem instConstantList_cache_step (st : List Class) (cl : List Constant) (cache : Cache) :
    CacheStep cache (instConstantList st cl cache).2 := by
  induction cl generalizing cache with
  | nil => exact CacheStep.rfl
  | cons c rest ih =>
    have Hc := instConstant_cache_step st c cache
    cases hc : instConstant st c cache with
    | mk r c1 =>
      rw [hc] at Hc
      cases r with
      | error err => simpa [instConstantList, hc] using Hc
      | ok c' =>
        have Hr := ih c1
        cases hr : instConstantList st rest c1 with
        | mk rr c2 =>
          rw [hr] at Hr
          cases rr with
          | error err => simpa [instConstantList, hc, hr] using Hc.trans Hr
          | ok rest' => simpa [instConstantList, hc, hr] using Hc.trans Hr

/-- Cache behaviour of `instClass`. -/
theorem instClass_cache_step (st : List Class) (c : Class) (cache : Cache) :
    CacheStep cache (instClass st c cache).2 := by
  have Htm : CacheStep cache
      (match c.template with
       | none => ((.ok none, cache) : Except Err (Option (List TemplateItem)) × Cache)
       | some ts =>
         match instTemplateItemList st ts cache with
         | (.ok ts', ca) => (.ok (some ts'), ca)
         | (.error err, ca) => (.error err, ca)).2 := by
    cases hc : c.template with
    | none => exact CacheStep.rfl
    | some ts =>
      have H := instTemplateItemList_cache_step st ts cache
      cases h : instTemplateItemList st ts cache with
      | mk r c1 =>
        rw [h] at H
        cases r with
        | error err => simpa [h] using H
        | ok ts' => simpa [h] using H
  cases htm : (match c.template with
       | none => ((.ok none, cache) : Except Err (Option (List TemplateItem)) × Cache)
       | some ts =>
         match instTemplateItemList st ts cache with
         | (.ok ts', ca) => (.ok (some ts'), ca)
         | (.error err, ca) => (.error err, ca)) with
  | mk rtm ca =>
    rw [htm] at Htm
    cases rtm with
    | error err => simpa [instClass, htm] using Htm
    | ok tmpl =>
      have Hp := instTList_cache_step st c.parents ca
      cases hp : instTList st c.parents ca with
      | mk rp c1 =>
        rw [hp] at Hp
        cases rp with
        | error err => simpa [instClass, htm, hp] using Htm.trans Hp
        | ok prts =>
          have Hc := instConstantList_cache_step st c.constants c1
          cases hcs : instConstantList st c.constants c1 with
          | mk rc c2 =>
            rw [hcs] at Hc
            cases rc with
            | error err => simpa [instClass, htm, hp, hcs] using (Htm.trans Hp).trans Hc
            | ok consts =>
              have Hm := instFunctionList_cache_step st c.methods c2
              cases hm : instFunctionList st c.methods c2 with
              | mk rm c3 =>
                rw [hm] at Hm
                cases rm with
                | error err =>
                  simpa [instClass, htm, hp, hcs, hm] using ((Htm.trans Hp).trans Hc).trans Hm
                | ok meths =>
                  simpa [instClass, htm, hp, hcs, hm] using ((Htm.trans Hp).trans Hc).trans Hm

/-- Cache behaviour of `instClassList`. -/
theorem instClassList_cache_step (st : List Class) (cl : List Class) (cache : Cache) :
    CacheStep cache (instClassList st cl cache).2 := by
  induction cl generalizing cache with
  | nil => exact CacheStep.rfl
  | cons c rest ih =>
    have Hc := instClass_cache_step st c cache
    cases hc : instClass st c cache with
    | mk r c1 =>
      rw [hc] at Hc
      cases r with
      | error err => simpa [instClassList, hc] using Hc
      | ok c' =>
        have Hr := ih c1
        cases hr : instClassList st rest c1 with
        | mk rr c2 =>
          rw [hr] at Hr
          cases rr with
          | error err => simpa [instClassList, hc, hr] using Hc.trans Hr
          | ok rest' => simpa [instClassList, hc, hr] using Hc.trans Hr

/-- Cache behaviour of `instUnit`. -/
theorem instUnit_cache_step (st : List Class) (u : TypeDeclUnit) (cache : Cache) :
    CacheStep cache (instUnit st u cache).2 := by
  have Hc := instConstantList_cache_step st u.constants cache
  cases hc : instConstantList st u.constants cache with
  | mk rc c1 =>
    rw [hc] at Hc
    cases rc with
    | error err => simpa [instUnit, hc] using Hc
    | ok consts =>
      have Hf := instFunctionList_cache_step st u.functions c1
      cases hf : instFunctionList st u.functions c1 with
      | mk rf c2 =>
        rw [hf] at Hf
        cases rf with
        | error err => simpa [instUnit, hc, hf] using Hc.trans Hf
        | ok fns =>
          have Hcl := instClassList_cache_step st u.classes c2
          cases hcl : instClassList st u.classes c2 with
          | mk rcl c3 =>
            rw [hcl] at Hcl
            cases rcl with
            | error err => simpa [instUnit, hc, hf, hcl] using (Hc.trans Hf).trans Hcl
            | ok cls => simpa [instUnit, hc, hf, hcl] using (Hc.trans Hf).trans Hcl

/-- C6: whenever the instantiation engine's traversal reaches a
`GenericType` node (its children having been processed by the
post-order traversal), the pass fails with `NotImplementedError` (the
spec's UnsupportedConstructError), and every cache entry completed
before the failure is still present, untouched, in the cache at the
failure. -/
theorem generic_type_fails_keeping_cache (st : List Class) (b : PyType) (ps : List PyType)
    (cache cache1 cache2 : Cache) (b' : PyType) (ps' : List PyType)
    (hb : instT st b cache = (.ok b', cache1))
    (hp : instTList st ps cache1 = (.ok ps', cache2)) :
    instT st (.generic b ps) cache = (.error .notImplementedError, cache2) ∧
    ∀ kv ∈ cache, kv ∈ cache2 := by
  constructor
  · simp [instT, hb, hp]
  · have H1 := instT_cache_step st b cache
    rw [hb] at H1
    have H2 := instTList_cache_step st ps cache1
    rw [hp] at H2
    obtain ⟨⟨t2, e2⟩, _⟩ := H1.trans H2
    have e2' : cache2 = cache ++ t2 := e2
    intro kv hkv
    rw [e2']
    exact List.mem_append_left _ hkv

/-- Witness for C6 at a concrete two-argument generic usage. -/
theorem generic_type_fails_keeping_cache_witness :
    instT [] (.generic (.basic "dict") [.basic "int", .basic "str"]) []
      = (.error .notImplementedError, []) ∧
    ∀ kv ∈ ([] : Cache), kv ∈ ([] : Cache) :=
  generic_type_fails_keeping_cache [] (.basic "dict") [.basic "int", .basic "str"]
    [] [] [] (.basic "dict") [.basic "int", .basic "str"] rfl rfl

/-- A class visited by the instantiation traversal keeps its name, and
keeps whether its template is `None`. -/
theorem instClass_ok_shape {st : List Class} {c : Class} {cache : Cache}
    {c' : Class} {c2 : Cache} (h : instClass st c cache = (.ok c', c2)) :
    c'.name = c.name ∧ c'.template.isNone = c.template.isNone := by
  cases htm : (match c.template with
       | none => ((.ok none, cache) : Except Err (Option (List TemplateItem)) × Cache)
       | some ts =>
         match instTemplateItemList st ts cache with
         | (.ok ts', ca) => (.ok (some ts'), ca)
         | (.error err, ca) => (.error err, ca)) with
  | mk rtm ca =>
    cases rtm with
    | error err => simp only [instClass, htm] at h; simp at h
    | ok tmpl =>
      have htmpl : tmpl.isNone = c.template.isNone := by
        cases hct : c.template with
        | none =>
          rw [hct] at htm
          simp only [Prod.mk.injEq] at htm
          obtain ⟨h1, _⟩ := htm
          cases h1
          rfl
        | some ts =>
          rw [hct] at htm
          cases hres : instTemplateItemList st ts cache with
          | mk r ca' =>
            cases r with
            | error err => simp only [hres] at htm; simp at htm
            | ok ts' =>
              simp only [hres, Prod.mk.injEq] at htm
              obtain ⟨h1, _⟩ := htm
              cases h1
              rfl
      cases hp : instTList st c.parents ca with
      | mk rp c1 =>
        cases rp with
        | error err => simp only [instClass, htm, hp] at h; simp at h
        | ok prts =>
          cases hcs : instConstantList st c.constants c1 with
          | mk rc cc2 =>
            cases rc with
            | error err => simp only [instClass, htm, hp, hcs] at h; simp at h
            | ok consts =>
              cases hm : instFunctionList st c.methods cc2 with
              | mk rm c3 =>
                cases rm with
                | error err => simp only [instClass, htm, hp, hcs, hm] at h; simp at h
                | ok meths =>
                  simp only [instClass, htm, hp, hcs, hm, Prod.mk.injEq,
                    Except.ok.injEq] at h
                  obtain ⟨h1, _⟩ := h
                  subst h1
                  exact ⟨rfl, htmpl⟩

/-- The instantiation traversal over a class list preserves, for every
class and for the sublist of template-free classes, the sequence of
class names. -/
theorem instClassList_ok_names {st : List Class} {cl : List Class} {cache : Cache}
    {cl' : List Class} {c2 : Cache} (h : instClassList st cl cache = (.ok cl', c2)) :
    cl'.map (fun c => c.name) = cl.map (fun c => c.name) ∧
    (cl'.filter (fun c => c.template.isNone)).map (fun c => c.name) =
      (cl.filter (fun c => c.template.isNone)).map (fun c => c.name) := by
  induction cl generalizing cache cl' with
  | nil =>
    simp only [instClassList, Prod.mk.injEq, Except.ok.injEq] at h
    obtain ⟨h1, _⟩ := h
    subst h1
    exact ⟨rfl, rfl⟩
  | cons c rest ih =>
    cases hc : instClass st c cache with
    | mk r c1 =>
      cases r with
      | error err => simp only [instClassList, hc] at h; simp at h
      | ok c' =>
        cases hr : instClassList st rest c1 with
        | mk rr cr =>
          cases rr with
          | error err => simp only [instClassList, hc, hr] at h; simp at h
          | ok rest' =>
            simp only [instClassList, hc, hr, Prod.mk.injEq, Except.ok.injEq] at h
            obtain ⟨h1, h2⟩ := h
            subst h1
            subst h2
            obtain ⟨hname, htmpl⟩ := instClass_ok_shape hc
            obtain ⟨ihn, ihf⟩ := ih hr
            constructor
            · simp [hname, ihn]
            · cases hb : c.template.isNone with
              | true => simp [List.filter_cons, htmpl, hb, hname, ihf]
              | false => simp [List.filter_cons, htmpl, hb, ihf]

/-- The empty cache satisfies the invariant. -/
theorem CacheOk_nil : CacheOk [] :=
  ⟨List.nodup_nil, fun p hp => absurd hp (List.not_mem_nil p)⟩

/-- A completed `InstantiateTemplates` run: the output unit, the
visited class list and the final cache, with the output class list
equal to the template-free visited classes plus the cache's values. -/
theorem instUnit_ok_decompose {st : List Class} {u u' : TypeDeclUnit} {cacheF : Cache}
    (h : InstantiateTemplates st u = (.ok u', cacheF)) :
    ∃ cmid cls, CacheStep [] cmid ∧
      instClassList st u.classes cmid = (.ok cls, cacheF) ∧
      u'.classes = cls.filter (fun c => c.template.isNone) ++ cacheF.map (fun p => p.2) := by
  cases hc : instConstantList st u.constants [] with
  | mk rc c1 =>
    cases rc with
    | error err => simp only [InstantiateTemplates, instUnit, hc] at h; simp at h
    | ok consts =>
      cases hf : instFunctionList st u.functions c1 with
      | mk rf c2 =>
        cases rf with
        | error err => simp only [InstantiateTemplates, instUnit, hc, hf] at h; simp at h
        | ok fns =>
          cases hcl : instClassList st u.classes c2 with
          | mk rcl c3 =>
            cases rcl with
            | error err =>
              simp only [InstantiateTemplates, instUnit, hc, hf, hcl] at h; simp at h
            | ok cls =>
              simp only [InstantiateTemplates, instUnit, hc, hf, hcl, Prod.mk.injEq,
                Except.ok.injEq] at h
              obtain ⟨h1, h2⟩ := h
              subst h2
              have s1 := instConstantList_cache_step st u.constants []
              rw [hc] at s1
              have s2 := instFunctionList_cache_step st u.functions c1
              rw [hf] at s2
              refine ⟨c2, cls, s1.trans s2, hcl, ?_⟩
              rw [← h1]

/-- C2: instantiating an already-cached (base, element) pair is a pure
cache hit: the node is rewritten to the canonical name and the cache is
returned unchanged (no second instantiation is performed, the cached
Class object is reused); and after a completed run, the output module
holds exactly one class bearing any canonical name produced into the
cache (provided no original class happened to use that name). -/
theorem instantiate_same_pair_memoized (st : List Class) :
    (∀ (bn en : String) (cache : Cache) (c : Class),
      cacheLookup cache (SafeName bn ++ "<" ++ SafeName en ++ ">") = some c →
      instT st (.homogeneous (.basic bn) (.basic en)) cache =
        (.ok (.basic (SafeName bn ++ "<" ++ SafeName en ++ ">")), cache)) ∧
    (∀ (u u' : TypeDeclUnit) (cacheF : Cache) (nm : String),
      InstantiateTemplates st u = (.ok u', cacheF) →
      nm ∈ cacheF.map Prod.fst →
      (∀ co ∈ u.classes, co.name ≠ nm) →
      u'.classes.countP (fun cl => cl.name == nm) = 1) := by
  constructor
  · intro bn en cache c hhit
    simp [instT, renderT, hhit]
  · intro u u' cacheF nm h hmem hold
    obtain ⟨cmid, cls, hstep, hcl, hclasses⟩ := instUnit_ok_decompose h
    have hok : CacheOk cacheF := by
      have hc := instClassList_cache_step st u.classes cmid
      rw [hcl] at hc
      exact hc.2 (hstep.2 CacheOk_nil)
    obtain ⟨hnames, _⟩ := instClassList_ok_names hcl
    rw [hclasses, List.countP_append]
    have hz : (cls.filter (fun c => c.template.isNone)).countP
        (fun cl => cl.name == nm) = 0 := by
      rw [List.countP_eq_zero]
      intro a ha hbeq
      have ha' : a ∈ cls := List.mem_of_mem_filter ha
      have hmm : a.name ∈ cls.map (fun c => c.name) := List.mem_map_of_mem _ ha'
      rw [hnames] at hmm
      obtain ⟨co, hco, hcoeq⟩ := List.mem_map.mp hmm
      have heq : a.name = nm := by simpa using hbeq
      exact hold co hco (hcoeq.trans heq)
    have ho : (cacheF.map (fun p => p.2)).countP (fun cl => cl.name == nm) = 1 := by
      rw [List.countP_map]
      have hcong : cacheF.countP ((fun cl => cl.name == nm) ∘ (fun p => p.2)) =
          cacheF.countP (fun p => p.1 == nm) := by
        apply List.countP_congr
        intro p hp
        have hn := (hok.2 p hp).1
        simp [Function.comp, hn]
      rw [hcong]
      have hcount : cacheF.countP (fun p => p.1 == nm) = (cacheF.map Prod.fst).count nm := by
        rw [List.count, List.countP_map]
        rfl
      rw [hcount]
      exact List.count_eq_one_of_mem hok.1 hmem
    rw [hz, ho]

/-- Witness for C2: a cache hit on `list<int>` returns the cache
untouched, and a completed run over a module using `Box<int>` once
ends with exactly one class named `Box<int>`. -/
theorem instantiate_same_pair_memoized_witness :
    (instT [] (.homogeneous (.basic "list") (.basic "int"))
        [("list<int>", ⟨"list<int>", none, [], [], []⟩)] =
      (.ok (.basic (SafeName "list" ++ "<" ++ SafeName "int" ++ ">")),
        [("list<int>", ⟨"list<int>", none, [], [], []⟩)])) ∧
    (⟨[⟨"b", .basic "Box<int>"⟩], [],
        [⟨"P", none, [], [], []⟩,
         ⟨"Box<int>", none, [], [⟨"x", .basic "int"⟩], []⟩]⟩ :
      TypeDeclUnit).classes.countP (fun cl => cl.name == "Box<int>") = 1 :=
  ⟨(instantiate_same_pair_memoized []).1 "list" "int"
      [("list<int>", ⟨"list<int>", none, [], [], []⟩)]
      ⟨"list<int>", none, [], [], []⟩ rfl,
   (instantiate_same_pair_memoized
      [⟨"Box", some [⟨"T", .basic "object"⟩], [], [⟨"x", .basic "T"⟩], []⟩,
       ⟨"P", none, [], [], []⟩]).2
      ⟨[⟨"b", .homogeneous (.basic "Box") (.basic "int")⟩], [],
        [⟨"Box", some [⟨"T", .basic "object"⟩], [], [⟨"x", .basic "T"⟩], []⟩,
         ⟨"P", none, [], [], []⟩]⟩
      ⟨[⟨"b", .basic "Box<int>"⟩], [],
        [⟨"P", none, [], [], []⟩,
         ⟨"Box<int>", none, [], [⟨"x", .basic "int"⟩], []⟩]⟩
      [("Box<int>", ⟨"Box<int>", none, [], [⟨"x", .basic "int"⟩], []⟩)]
      "Box<int>" rfl (by decide) (by decide)⟩

/-- C7: a completed `InstantiateTemplates` run returns a module whose
class list is the (visited) original classes whose template is `None`
followed by every class produced into the run's cache, and no class
with a non-`None` template remains in the output. -/
theorem instantiation_finalizes_class_list
    (st : List Class) (u u' : TypeDeclUnit) (cacheF : Cache)
    (hwf : ∀ c ∈ u.classes, c.template ≠ some [])
    (h : InstantiateTemplates st u = (.ok u', cacheF)) :
    (∀ c ∈ u'.classes, c.template = none) ∧
    ∃ old, u'.classes = old ++ cacheF.map (fun p => p.2) ∧
      old.map (fun c => c.name) =
        (u.classes.filter (fun c => c.template.isNone)).map (fun c => c.name) := by
  obtain ⟨cmid, cls, hstep, hcl, hclasses⟩ := instUnit_ok_decompose h
  have hok : CacheOk cacheF := by
    have hc := instClassList_cache_step st u.classes cmid
    rw [hcl] at hc
    exact hc.2 (hstep.2 CacheOk_nil)
  constructor
  · intro c hcmem
    rw [hclasses] at hcmem
    rcases List.mem_append.mp hcmem with hcm | hcm
    · exact Option.isNone_iff_eq_none.mp (List.mem_filter.mp hcm).2
    · obtain ⟨p, hp, rfl⟩ := List.mem_map.mp hcm
      exact (hok.2 p hp).2
  · exact ⟨_, hclasses, (instClassList_ok_names hcl).2⟩

/-- Witness for C7 at a module with one generic class (used once) and
one concrete class. -/
theorem instantiation_finalizes_class_list_witness :
    (∀ c ∈ (⟨[⟨"b", .basic "Box<int>"⟩], [],
        [⟨"P", none, [], [], []⟩,
         ⟨"Box<int>", none, [], [⟨"x", .basic "int"⟩], []⟩]⟩ :
        TypeDeclUnit).classes, c.template = none) ∧
    ∃ old, (⟨[⟨"b", .basic "Box<int>"⟩], [],
        [⟨"P", none, [], [], []⟩,
         ⟨"Box<int>", none, [], [⟨"x", .basic "int"⟩], []⟩]⟩ :
        TypeDeclUnit).classes =
        old ++ ([("Box<int>", ⟨"Box<int>", none, [], [⟨"x", .basic "int"⟩], []⟩)] :
          Cache).map (fun p => p.2) ∧
      old.map (fun c => c.name) =
        (((⟨[⟨"b", .homogeneous (.basic "Box") (.basic "int")⟩], [],
          [⟨"Box", some [⟨"T", .basic "object"⟩], [], [⟨"x", .basic "T"⟩], []⟩,
           ⟨"P", none, [], [], []⟩]⟩ : TypeDeclUnit)).classes.filter
            (fun c => c.template.isNone)).map (fun c => c.name) :=
  instantiation_finalizes_class_list
    [⟨"Box", some [⟨"T", .basic "object"⟩], [], [⟨"x", .basic "T"⟩], []⟩,
     ⟨"P", none, [], [], []⟩]
    ⟨[⟨"b", .homogeneous (.basic "Box") (.basic "int")⟩], [],
      [⟨"Box", some [⟨"T", .basic "object"⟩], [], [⟨"x", .basic "T"⟩], []⟩,
       ⟨"P", none, [], [], []⟩]⟩
    ⟨[⟨"b", .basic "Box<int>"⟩], [],
      [⟨"P", none, [], [], []⟩,
       ⟨"Box<int>", none, [], [⟨"x", .basic "int"⟩], []⟩]⟩
    [("Box<int>", ⟨"Box<int>", none, [], [⟨"x", .basic "int"⟩], []⟩)]
    (by simp) rfl

/-- C3 counterexample: instantiating `List<int>` where `List`'s field
type is a ClassReference named `T` leaves that ClassReference
unsubstituted in the produced class (`ReplaceType` only changes
`BasicType` nodes), and the container occurrence is replaced by a
`BasicType` bearing the canonical name, not a ClassReference. -/
theorem instantiate_class_reference_untouched_cex :
    instT [⟨"List", some [⟨"T", .basic "object"⟩], [], [⟨"x", .classType "T" none⟩], []⟩]
        (.homogeneous (.basic "List") (.basic "int")) [] =
      (.ok (.basic "List<int>"),
       [("List<int>", ⟨"List<int>", none, [], [⟨"x", .classType "T" none⟩], []⟩)]) ∧
    (∀ i : Option Nat, PyType.basic "List<int>" ≠ PyType.classType "List<int>" i) := by
  refine ⟨rfl, ?_⟩
  intro i h
  exact PyType.noConfusion h

/-- C3 amended: on a cache miss the engine caches, under the canonical
name, a copy of the base class renamed to the canonical name with its
template cleared, in which `ReplaceType` substitutes the element type
for matching `NamedType` (`BasicType`) nodes only — ClassReference
(`ClassType`) nodes are left untouched — and the original occurrence
becomes a `NamedType` (`BasicType`) bearing the canonical name. -/
theorem instantiate_uncached_substitutes_named_types (st : List Class) (bn en : String)
    (cache : Cache) (cls : Class) (ts : List TemplateItem)
    (hmiss : cacheLookup cache (SafeName bn ++ "<" ++ SafeName en ++ ">") = none)
    (hcls : lookupCls st bn = some cls)
    (htm : cls.template = some ts) :
    instT st (.homogeneous (.basic bn) (.basic en)) cache =
      (.ok (.basic (SafeName bn ++ "<" ++ SafeName en ++ ">")),
       cache ++ [(SafeName bn ++ "<" ++ SafeName en ++ ">",
         replaceClass (List.zip (ts.map (fun t => t.name)) [.basic en])
           { cls with name := SafeName bn ++ "<" ++ SafeName en ++ ">",
                      template := none })]) ∧
    (∀ (m : List (String × PyType)) (n : String) (t : PyType),
      dictLookup m n = some t → replaceT m (.basic n) = t) ∧
    (∀ (m : List (String × PyType)) (n : String) (co : Option Nat),
      replaceT m (.classType n co) = .classType n co) := by
  refine ⟨?_, ?_, ?_⟩
  · simp [instT, renderT, hmiss, InstantiateClass, hcls, htm]
  · intro m n t hd
    simp [replaceT, hd]
  · intro m n co
    simp [replaceT]

/-- Witness for C3's amended theorem at a concrete base class whose
field is a `NamedType` `T`. -/
theorem instantiate_uncached_substitutes_named_types_witness :
    (instT [⟨"List", some [⟨"T", .basic "object"⟩], [], [⟨"v", .basic "T"⟩], []⟩]
        (.homogeneous (.basic "List") (.basic "int")) [] =
      (.ok (.basic (SafeName "List" ++ "<" ++ SafeName "int" ++ ">")),
       [] ++ [(SafeName "List" ++ "<" ++ SafeName "int" ++ ">",
         replaceClass (List.zip (([⟨"T", .basic "object"⟩] :
             List TemplateItem).map (fun t => t.name)) [.basic "int"])
           { (⟨"List", some [⟨"T", .basic "object"⟩], [], [⟨"v", .basic "T"⟩], []⟩ : Class) with
               name := SafeName "List" ++ "<" ++ SafeName "int" ++ ">",
               template := none })])) ∧
    (∀ (m : List (String × PyType)) (n : String) (t : PyType),
      dictLookup m n = some t → replaceT m (.basic n) = t) ∧
    (∀ (m : List (String × PyType)) (n : String) (co : Option Nat),
      replaceT m (.classType n co) = .classType n co) :=
  instantiate_uncached_substitutes_named_types
    [⟨"List", some [⟨"T", .basic "object"⟩], [], [⟨"v", .basic "T"⟩], []⟩]
    "List" "int" [] ⟨"List", some [⟨"T", .basic "object"⟩], [], [⟨"v", .basic "T"⟩], []⟩
    [⟨"T", .basic "object"⟩] rfl rfl rfl

/-- C4 counterexample: instantiating a base class whose template has
two parameters with a single element type does not fail — it silently
produces a partially substituted class (the second template parameter
`U` survives unreplaced). -/
theorem instantiate_arity_mismatch_cex :
    InstantiateClass
        [⟨"Pair", some [⟨"T", .basic "object"⟩, ⟨"U", .basic "object"⟩], [],
          [⟨"x", .basic "T"⟩, ⟨"y", .basic "U"⟩], []⟩]
        "Pair<int>" (.basic "Pair") [.basic "int"] =
      .ok ⟨"Pair<int>", none, [],
        [⟨"x", .basic "int"⟩, ⟨"y", .basic "U"⟩], []⟩ := by
  rfl

/-- C4 amended: `_InstantiateClass` performs no arity check.  With two
or more template parameters and one element type, `zip` truncates and
only the first parameter is substituted; with an empty (zero-entry)
template list the class is copied with no substitution at all; only a
base class whose template is `None` fails, and with a `TypeError` (from
iterating `None`), not an arity error. -/
theorem instantiate_arity_mismatch_silent :
    (∀ (st : List Class) (name bn : String) (cls : Class) (t1 t2 : TemplateItem)
       (rest : List TemplateItem) (e : PyType),
      lookupCls st bn = some cls → cls.template = some (t1 :: t2 :: rest) →
      InstantiateClass st name (.basic bn) [e] =
        .ok (replaceClass [(t1.name, e)] { cls with name := name, template := none })) ∧
    (∀ (st : List Class) (name bn : String) (cls : Class) (e : PyType),
      lookupCls st bn = some cls → cls.template = some [] →
      InstantiateClass st name (.basic bn) [e] =
        .ok (replaceClass [] { cls with name := name, template := none })) ∧
    (∀ (st : List Class) (name bn : String) (cls : Class) (e : PyType),
      lookupCls st bn = some cls → cls.template = none →
      InstantiateClass st name (.basic bn) [e] = .error .typeError) := by
  refine ⟨?_, ?_, ?_⟩
  · intro st name bn cls t1 t2 rest e hcls htm
    simp [InstantiateClass, hcls, htm]
  · intro st name bn cls e hcls htm
    simp [InstantiateClass, hcls, htm]
  · intro st name bn cls e hcls htm
    simp [InstantiateClass, hcls, htm]

/-- Witness for C4's amended theorem at concrete two-parameter,
zero-parameter and template-free base classes. -/
theorem instantiate_arity_mismatch_silent_witness :
    (InstantiateClass
        [⟨"P2", some [⟨"T", .basic "object"⟩, ⟨"U", .basic "object"⟩], [],
          [⟨"x", .basic "T"⟩], []⟩]
        "P2<int>" (.basic "P2") [.basic "int"] =
      .ok (replaceClass [("T", .basic "int")]
        { (⟨"P2", some [⟨"T", .basic "object"⟩, ⟨"U", .basic "object"⟩], [],
            [⟨"x", .basic "T"⟩], []⟩ : Class) with
            name := "P2<int>", template := none })) ∧
    (InstantiateClass [⟨"P0", some [], [], [], []⟩] "P0<int>" (.basic "P0") [.basic "int"] =
      .ok (replaceClass []
        { (⟨"P0", some [], [], [], []⟩ : Class) with name := "P0<int>", template := none })) ∧
    (InstantiateClass [⟨"C", none, [], [], []⟩] "C<int>" (.basic "C") [.basic "int"] =
      .error .typeError) :=
  ⟨by
    have h := instantiate_arity_mismatch_silent.1
      [⟨"P2", some [⟨"T", .basic "object"⟩, ⟨"U", .basic "object"⟩], [],
        [⟨"x", .basic "T"⟩], []⟩]
      "P2<int>" "P2"
      ⟨"P2", some [⟨"T", .basic "object"⟩, ⟨"U", .basic "object"⟩], [],
        [⟨"x", .basic "T"⟩], []⟩
      ⟨"T", .basic "object"⟩ ⟨"U", .basic "object"⟩ [] (.basic "int") rfl rfl
    exact h,
   instantiate_arity_mismatch_silent.2.1
      [⟨"P0", some [], [], [], []⟩] "P0<int>" "P0" ⟨"P0", some [], [], [], []⟩
      (.basic "int") rfl rfl,
   instantiate_arity_mismatch_silent.2.2
      [⟨"C", none, [], [], []⟩] "C<int>" "C" ⟨"C", none, [], [], []⟩
      (.basic "int") rfl rfl⟩

/-- C5: resolving a module that references a class name not defined in
it fails with a `KeyError` (the spec's UnresolvedNameError) naming an
undefined referenced name; a returned (ok) module never contains a
ClassReference whose link cell is still empty. -/
theorem unresolved_name_aborts_resolution (u : TypeDeclUnit) :
    (∀ u', LookupClasses u = .ok u' → filledUnit u' = true) ∧
    (∀ e, LookupClasses u = .error e →
      ∃ n, e = .keyError n ∧ n ∈ refNamesUnit u ∧ lookupIdx u.classes n = none) ∧
    ((∃ n, n ∈ refNamesUnit u ∧ lookupIdx u.classes n = none) →
      ∃ e, LookupClasses u = .error e) := by
  have hnames := convUnit_class_names u
  have hct := ctNamesUnit_conv u
  refine ⟨?_, ?_, ?_⟩
  · intro u' h
    have h' : fillUnit (convUnit u).classes (convUnit u) = .ok u' := h
    exact (fillUnit_ok h').1
  · intro e h
    have h' : fillUnit (convUnit u).classes (convUnit u) = .error e := h
    obtain ⟨n, rfl, hn, hidx⟩ := fillUnit_err h'
    refine ⟨n, rfl, ?_, ?_⟩
    · rwa [hct] at hn
    · rwa [lookupIdx_map_name hnames n] at hidx
  · rintro ⟨n, hn, hidx⟩
    cases h : LookupClasses u with
    | ok u' =>
      have h' : fillUnit (convUnit u).classes (convUnit u) = .ok u' := h
      have hd := (fillUnit_ok h').2 n (by rwa [hct])
      rw [lookupIdx_map_name hnames n, hidx] at hd
      simp at hd
    | error e => exact ⟨e, rfl⟩

/-- Witness for C5 at a module whose only class references the
undefined name `Foo`. -/
theorem unresolved_name_aborts_resolution_witness :
    (∃ n, (Err.keyError "Foo") = .keyError n ∧
      n ∈ refNamesUnit ⟨[], [], [⟨"A", none, [], [⟨"x", .basic "Foo"⟩], []⟩]⟩ ∧
      lookupIdx (⟨[], [], [⟨"A", none, [], [⟨"x", .basic "Foo"⟩], []⟩]⟩ :
        TypeDeclUnit).classes n = none) ∧
    (∃ e, LookupClasses ⟨[], [], [⟨"A", none, [], [⟨"x", .basic "Foo"⟩], []⟩]⟩ =
      .error e) :=
  ⟨(unresolved_name_aborts_resolution
      ⟨[], [], [⟨"A", none, [], [⟨"x", .basic "Foo"⟩], []⟩]⟩).2.1
      (Err.keyError "Foo") rfl,
   (unresolved_name_aborts_resolution
      ⟨[], [], [⟨"A", none, [], [⟨"x", .basic "Foo"⟩], []⟩]⟩).2.2
      ⟨"Foo", by decide, by decide⟩⟩

end Pytd
